import Mathlib

/-!
Verification of the habit-homepage backend (analytics, goal evaluation and
recording orchestration) against its natural-language specification.

The Python services are shallowly embedded:

* Python `datetime.date` values are modelled by their proleptic-Gregorian
  ordinal (`date.toordinal()`, a plain `Nat`; `0001-01-01` is ordinal 1).
  The calendar conversion functions below mirror CPython's `datetime` module
  internals (`_is_leap`, `_days_in_month`, `_days_before_month`,
  `_days_before_year`, `_ymd2ord`, `date.weekday`).
* Python `float` entry values are modelled by `ℚ`.  None of the verified
  claims depends on binary floating-point rounding: the arithmetic involved
  (sums of measurements, comparisons, one division by a day count followed by
  rounding to two decimals) is exact at the granularity the claims observe.
* The SQLite-backed repositories are modelled by explicit state passing: the
  entry table is a list of rows, `save` performs the key-based upsert of the
  adapter (`ON CONFLICT(date, habit_id) DO UPDATE`), and Python dicts are
  association lists with insert-or-replace-in-place semantics.
* Python exceptions become `Except` values; the distinct exception classes of
  `domain/exceptions.py` (and the plain `ValueError`s the services raise) are
  separate constructors, with their message payloads carried as data.
-/

namespace HabitHomepage

/-! ## Calendar arithmetic (CPython `datetime` semantics) -/

/-- CPython `_is_leap(year)`. -/
def isLeapYear (year : Nat) : Bool :=
  year % 4 == 0 && (year % 100 != 0 || year % 400 == 0)

/-- CPython `_DAYS_IN_MONTH` table (non-leap February). -/
def DAYS_IN_MONTH : Nat → Nat
  | 1 => 31 | 2 => 28 | 3 => 31 | 4 => 30 | 5 => 31 | 6 => 30
  | 7 => 31 | 8 => 31 | 9 => 30 | 10 => 31 | 11 => 30 | 12 => 31
  | _ => 0

/-- CPython `_DAYS_BEFORE_MONTH` table (non-leap year). -/
def DAYS_BEFORE_MONTH : Nat → Nat
  | 1 => 0 | 2 => 31 | 3 => 59 | 4 => 90 | 5 => 120 | 6 => 151
  | 7 => 181 | 8 => 212 | 9 => 243 | 10 => 273 | 11 => 304 | 12 => 334
  | _ => 0

/-- CPython `_days_in_month(year, month)`. -/
def daysInMonth (year month : Nat) : Nat :=
  if month = 2 ∧ isLeapYear year then 29 else DAYS_IN_MONTH month

/-- CPython `_days_before_month(year, month)`. -/
def daysBeforeMonth (year month : Nat) : Nat :=
  DAYS_BEFORE_MONTH month + (if month > 2 ∧ isLeapYear year then 1 else 0)

/-- CPython `_days_before_year(year)`: days before January 1st of `year`. -/
def daysBeforeYear (year : Nat) : Nat :=
  let y := year - 1
  y * 365 + y / 4 - y / 100 + y / 400

/-- CPython `_ymd2ord(year, month, day)`: the ordinal of a calendar date. -/
def ymd2ord (year month day : Nat) : Nat :=
  daysBeforeYear year + daysBeforeMonth year month + day

/-- Python `date.weekday()`: Monday is 0, Sunday is 6.
CPython computes `(toordinal() + 6) % 7`. -/
def weekday (d : Nat) : Nat :=
  (d + 6) % 7

/-! ## Domain model (`domain/`) -/

/-- Enum `HabitSource` value object: how an entry was recorded. -/
inductive HabitSource where
  | manual
  | automatic
deriving DecidableEq

/-- Entity `HabitEntry` domain entity: one measurement of one habit on one date.
`recorded_at` timestamps are opaque clock readings, modelled as `Nat`. -/
structure HabitEntry where
  habit_id : String
  date : Nat
  value : ℚ
  recorded_at : Nat
  source : HabitSource
deriving DecidableEq

/-- A Python `dict` whose iteration order matters is an association list:
assigning to an existing key replaces the value in place, assigning to a new
key appends. -/
def pyDictInsert {α β : Type} [DecidableEq α] (k : α) (v : β) :
    List (α × β) → List (α × β)
  | [] => [(k, v)]
  | (k', v') :: rest =>
      if k' = k then (k, v) :: rest else (k', v') :: pyDictInsert k v rest

/-- Python `dict` lookup (`d[k]` / `d.get(k)`). -/
def pyDictGet? {α β : Type} [DecidableEq α] (k : α) :
    List (α × β) → Option β
  | [] => none
  | (k', v') :: rest => if k' = k then some v' else pyDictGet? k rest

/-- Entity `DailyLog` domain entity: all entries of one calendar date, as a dict
from habit id to entry. -/
structure DailyLog where
  date : Nat
  entries : List (String × HabitEntry)
deriving DecidableEq

/-- Entity `Habit` domain entity (catalog item).  The `provider_config` dict is
modelled as an optional association list of string options; only its
`"provider"` key is read by the recording orchestrator. -/
structure Habit where
  id : String
  name : String
  unit : String
  source : HabitSource
  description : String := ""
  category_id : Option String := none
  provider_config : Option (List (String × String)) := none
deriving DecidableEq

/-- Source `Habit.is_automatic()`. -/
def Habit.is_automatic (h : Habit) : Bool :=
  h.source == HabitSource.automatic

/-- Enum `GoalComparison`. -/
inductive GoalComparison where
  | greater_than_or_equal
  | less_than_or_equal
  | equal
deriving DecidableEq

/-- Enum `GoalPeriod`. -/
inductive GoalPeriod where
  | daily
  | weekly
  | monthly
deriving DecidableEq

/-- Entity `Goal`. -/
structure Goal where
  id : String
  habit_id : String
  target_value : ℚ
  comparison : GoalComparison
  period : GoalPeriod
  start_date : Nat
  end_date : Option Nat := none
  description : String := ""
deriving DecidableEq

/-- Source `Goal.is_met(actual_value)`. -/
def Goal.is_met (g : Goal) (actual_value : ℚ) : Bool :=
  match g.comparison with
  | .greater_than_or_equal => actual_value ≥ g.target_value
  | .less_than_or_equal => actual_value ≤ g.target_value
  | .equal => actual_value == g.target_value

/-- Source `Goal.is_active(check_date)`. -/
def Goal.is_active (g : Goal) (check_date : Nat) : Bool :=
  if check_date < g.start_date then false
  else
    match g.end_date with
    | some e => if check_date > e then false else true
    | none => true

/-! ## Exceptions (`domain/exceptions.py` and plain `ValueError`s)

Message payloads are carried as structured data rather than formatted
strings; each constructor of `ValueErrorMsg` records which `ValueError`
message template the Python code raises. -/

/-- The message template of a plain Python `ValueError` raised in `src/`. -/
inductive ValueErrorMsg where
  /-- Source `AnalyticsService`: `Habit not found` message. -/
  | analyticsHabitNotFound (habit_id : String)
  /-- Source `DailyLogService.record_habit`: `Habit does not exist` message. -/
  | recordHabitDoesNotExist (habit_id : String)
  /-- Source `DailyLog.add_or_update_entry`: entry date does not match log date. -/
  | entryDateMismatch (entry_date log_date : Nat)
  /-- Source `GoalService.update_goal`: `End date must be after start date`. -/
  | endDateBeforeStartDate
deriving DecidableEq

/-- A raised Python exception, distinguished by its class. -/
inductive PyExc where
  /-- A plain `ValueError` (not a `HabitTrackerException`). -/
  | valueError (msg : ValueErrorMsg)
  /-- Source `HabitNotFoundError` (a `ResourceNotFoundError`). -/
  | habitNotFoundError (habit_id : String)
  /-- Source `GoalNotFoundError` (a `ResourceNotFoundError`). -/
  | goalNotFoundError (goal_id : String)
  /-- Source `InvalidDateRangeError` (a `ValidationError`). -/
  | invalidDateRangeError (start_date end_date : Nat)
  /-- Source `InvalidGoalConfigError` (a `ValidationError`). -/
  | invalidGoalConfigError
  /-- Source `DuplicateResourceError` (a `BusinessRuleViolationError`). -/
  | duplicateResourceError (resource_type identifier : String)
  /-- Any member of the `ProviderError` family, tagged by provider name. -/
  | providerError (provider_name : String)
deriving DecidableEq

/-- Source `DailyLog.add_or_update_entry(entry)`: one entry per habit per day;
raises `ValueError` when the entry's date does not match the log's date. -/
def DailyLog.add_or_update_entry (log : DailyLog) (entry : HabitEntry) :
    Except PyExc DailyLog :=
  if entry.date ≠ log.date then
    .error (.valueError (.entryDateMismatch entry.date log.date))
  else
    .ok { log with entries := pyDictInsert entry.habit_id entry log.entries }

/-! ## Entry store and catalogs (SQLite repository adapters)

The `habit_entries` table is a list of rows whose well-formedness invariant
is the table's primary key: at most one row per `(date, habit_id)`. -/

/-- The state of the `habit_entries` SQLite table. -/
abbrev Store := List HabitEntry

/-- The table's `PRIMARY KEY (date, habit_id)` invariant. -/
def storeKeyUnique (s : Store) : Prop :=
  s.Pairwise (fun e₁ e₂ => e₁.date ≠ e₂.date ∨ e₁.habit_id ≠ e₂.habit_id)

instance (s : Store) : Decidable (storeKeyUnique s) := by
  unfold storeKeyUnique; infer_instance

/-- Source `SQLiteDailyLogRepository.get_entries_by_habit(habit_id, start, end)`:
rows of one habit within an inclusive date range.  (The adapter's
`ORDER BY date` is omitted: every verified consumer reads the result as a
set, a sum, a count or a keyed map, never through its order.) -/
def get_entries_by_habit (s : Store) (habit_id : String) (start_date end_date : Nat) :
    List HabitEntry :=
  s.filter fun e =>
    decide (e.habit_id = habit_id ∧ start_date ≤ e.date ∧ e.date ≤ end_date)

/-- Source `SQLiteDailyLogRepository.get_by_date(target_date)`: `None` when no rows
exist, otherwise a `DailyLog` whose dict is filled row by row. -/
def get_by_date (s : Store) (target_date : Nat) : Option DailyLog :=
  let rows := s.filter fun e => decide (e.date = target_date)
  if rows.isEmpty then none
  else some ⟨target_date, rows.foldl (fun es e => pyDictInsert e.habit_id e es) []⟩

/-- One `INSERT ... ON CONFLICT(date, habit_id) DO UPDATE` statement. -/
def storeUpsert (e : HabitEntry) : Store → Store
  | [] => [e]
  | e' :: rest =>
      if e'.date = e.date ∧ e'.habit_id = e.habit_id then e :: rest
      else e' :: storeUpsert e rest

/-- Source `SQLiteDailyLogRepository.save(log)`: upsert every entry of the log. -/
def save_log (log : DailyLog) (s : Store) : Store :=
  log.entries.foldl (fun acc p => storeUpsert p.2 acc) s

/-- The row of the entry table at key `(target_date, habit_id)`, if any. -/
def lookupStore (s : Store) (target_date : Nat) (habit_id : String) :
    Option HabitEntry :=
  s.find? fun e => decide (e.date = target_date ∧ e.habit_id = habit_id)

/-- Source `HabitRepository.get_by_id` over the habit catalog. -/
def findHabit (habits : List Habit) (habit_id : String) : Option Habit :=
  habits.find? fun h => h.id == habit_id

/-- Source `GoalRepository.get_by_id` over the goal store. -/
def findGoal (goals : List Goal) (goal_id : String) : Option Goal :=
  goals.find? fun g => g.id == goal_id

/-- Source `SQLiteGoalRepository.save(goal)`: upsert keyed by goal id. -/
def saveGoal (g : Goal) : List Goal → List Goal
  | [] => [g]
  | g' :: rest => if g'.id = g.id then g :: rest else g' :: saveGoal g rest

/-! ## Data providers (`ports/providers/habit_data_provider.py`)

A provider is its identity string together with its `fetch_data` behaviour.
`fetch_data` may return a value, return `None` ("no data available"), or
raise — the adapters can surface any `ProviderError` (and the embedding
allows any exception, as Python does). -/

/-- A registered `HabitDataProvider`. -/
structure DataProvider where
  provider_name : String
  fetch_data : Habit → Nat → Except PyExc (Option ℚ)

/-! ## `AnalyticsService` (`application/analytics_service.py`) -/

/-- The dict returned by `AnalyticsService.get_habit_statistics`.
`days_in_range` is `(end_date - start_date).days + 1`, an `Int` because
Python date subtraction is signed. -/
structure StatsResult where
  min : ℚ
  max : ℚ
  average : ℚ
  total : ℚ
  count : Nat
  days_logged : Nat
  days_in_range : Int
deriving DecidableEq

/-- Source `AnalyticsService.get_habit_statistics(habit_id, start_date, end_date)`. -/
def get_habit_statistics (habits : List Habit) (s : Store)
    (habit_id : String) (start_date end_date : Nat) : Except PyExc StatsResult :=
  match findHabit habits habit_id with
  | none => .error (.valueError (.analyticsHabitNotFound habit_id))
  | some _ =>
    let entries := get_entries_by_habit s habit_id start_date end_date
    match entries with
    | [] =>
        .ok ⟨0, 0, 0, 0, 0, 0, (end_date : Int) - (start_date : Int) + 1⟩
    | e :: es =>
        let values := (e :: es).map (·.value)
        .ok ⟨values.foldl min e.value, values.foldl max e.value,
             values.sum / (values.length : ℚ), values.sum,
             (e :: es).length, (e :: es).length,
             (end_date : Int) - (start_date : Int) + 1⟩

/-- The backward-walking loop of `get_current_streak`, with the remaining
loop iterations (`range(365)`) as fuel.  Python steps the date with
`check_date - timedelta(days=1)`; the model uses truncated `Nat`
subtraction, which only diverges from Python (an `OverflowError`) when the
walk would step before ordinal 1, i.e. before `0001-01-01`. -/
def streakLoop (s : Store) (habit_id : String) :
    Nat → Nat → Nat → Nat
  | 0, _, streak => streak
  | fuel + 1, check_date, streak =>
      if (get_entries_by_habit s habit_id check_date check_date).isEmpty then
        streak
      else
        streakLoop s habit_id fuel (check_date - 1) (streak + 1)

/-- Source `AnalyticsService.get_current_streak(habit_id, as_of_date)` (with the
`as_of_date` argument always supplied). -/
def get_current_streak (habits : List Habit) (s : Store)
    (habit_id : String) (as_of_date : Nat) : Except PyExc Nat :=
  match findHabit habits habit_id with
  | none => .error (.valueError (.analyticsHabitNotFound habit_id))
  | some _ => .ok (streakLoop s habit_id 365 as_of_date 0)

/-- The dict returned by `AnalyticsService.get_longest_streak`
(dates stand in for their `isoformat()` strings). -/
structure LongestStreakResult where
  length : Nat
  start_date : Option Nat
  end_date : Option Nat
deriving DecidableEq

/-- The loop state of `get_longest_streak`. -/
structure LSState where
  max_streak : Nat
  max_start : Option Nat
  max_end : Option Nat
  current_streak : Nat
  current_start : Option Nat
deriving DecidableEq

/-- One iteration of the `get_longest_streak` date scan. -/
def lsStep (logged : Nat → Bool) (st : LSState) (check_date : Nat) : LSState :=
  if logged check_date then
    let current_start :=
      if st.current_streak = 0 then some check_date else st.current_start
    let current_streak := st.current_streak + 1
    if current_streak > st.max_streak then
      ⟨current_streak, current_start, some check_date, current_streak, current_start⟩
    else
      { st with current_streak := current_streak, current_start := current_start }
  else
    { st with current_streak := 0, current_start := none }

/-- The inclusive day range `[start_date, end_date]` that the services walk
with `while check_date <= end_date: ... check_date += timedelta(days=1)`. -/
def dayRange (start_date end_date : Nat) : List Nat :=
  List.range' start_date (end_date + 1 - start_date)

/-- Source `AnalyticsService.get_longest_streak(habit_id, start_date, end_date)`. -/
def get_longest_streak (habits : List Habit) (s : Store)
    (habit_id : String) (start_date end_date : Nat) :
    Except PyExc LongestStreakResult :=
  match findHabit habits habit_id with
  | none => .error (.valueError (.analyticsHabitNotFound habit_id))
  | some _ =>
    let entries := get_entries_by_habit s habit_id start_date end_date
    if entries.isEmpty then .ok ⟨0, none, none⟩
    else
      let logged_dates := entries.map (·.date)
      let st := (dayRange start_date end_date).foldl
        (lsStep fun d => logged_dates.contains d) ⟨0, none, none, 0, none⟩
      .ok ⟨st.max_streak, st.max_start, st.max_end⟩

/-- Source `AnalyticsService.get_calendar_data(habit_id, year, month)`: one
`(date, value)` point per day of the month (dates stand in for their
`isoformat()` strings). -/
def get_calendar_data (habits : List Habit) (s : Store)
    (habit_id : String) (year month : Nat) :
    Except PyExc (List (Nat × ℚ)) :=
  match findHabit habits habit_id with
  | none => .error (.valueError (.analyticsHabitNotFound habit_id))
  | some _ =>
    let start_date := ymd2ord year month 1
    let end_date :=
      if month = 12 then ymd2ord year 12 31
      else ymd2ord year (month + 1) 1 - 1
    let entries := get_entries_by_habit s habit_id start_date end_date
    let entry_map := entries.foldl (fun m e => pyDictInsert e.date e.value m) []
    .ok ((dayRange start_date end_date).map fun d =>
      (d, (pyDictGet? d entry_map).getD 0))

/-- Source `AnalyticsService.get_habit_trend(habit_id, start_date, end_date)`. -/
def get_habit_trend (habits : List Habit) (s : Store)
    (habit_id : String) (start_date end_date : Nat) :
    Except PyExc (List (Nat × ℚ)) :=
  match findHabit habits habit_id with
  | none => .error (.valueError (.analyticsHabitNotFound habit_id))
  | some _ =>
    let entries := get_entries_by_habit s habit_id start_date end_date
    let entry_map := entries.foldl (fun m e => pyDictInsert e.date e.value m) []
    .ok ((dayRange start_date end_date).map fun d =>
      (d, (pyDictGet? d entry_map).getD 0))

/-- Python `round(x, 2)` idealised on `ℚ`: round to the nearest multiple of
`1/100`, ties to even (CPython's documented behaviour for `round`). -/
def pyRound2 (q : ℚ) : ℚ :=
  let t := q * 100
  let f := ⌊t⌋
  let n :=
    if t - f < 1 / 2 then f
    else if t - f > 1 / 2 then f + 1
    else if f % 2 = 0 then f else f + 1
  (n : ℚ) / 100

/-- The dict returned by `AnalyticsService.get_completion_rate`. -/
structure CompletionRateResult where
  completion_rate : ℚ
  days_completed : Nat
  total_days : Int
deriving DecidableEq

/-- Source `AnalyticsService.get_completion_rate(habit_id, start_date, end_date,
threshold)`. -/
def get_completion_rate (habits : List Habit) (s : Store)
    (habit_id : String) (start_date end_date : Nat) (threshold : ℚ) :
    Except PyExc CompletionRateResult :=
  match findHabit habits habit_id with
  | none => .error (.valueError (.analyticsHabitNotFound habit_id))
  | some _ =>
    let entries := get_entries_by_habit s habit_id start_date end_date
    let total_days : Int := (end_date : Int) - (start_date : Int) + 1
    let days_completed := entries.countP fun e => decide (e.value > threshold)
    let completion_rate : ℚ :=
      if total_days > 0 then
        (days_completed : ℚ) / (total_days : ℚ) * 100
      else 0
    .ok ⟨pyRound2 completion_rate, days_completed, total_days⟩

/-! ## `DailyLogService` (`application/daily_log_service.py`) -/

/-- Source `DailyLogService.get_or_create(target_date)`. -/
def get_or_create (s : Store) (target_date : Nat) : DailyLog :=
  match get_by_date s target_date with
  | some log => log
  | none => ⟨target_date, []⟩

/-- Source `DailyLogService.record_habit(target_date, habit_id, value)`; `now` is
the `datetime.now(timezone.utc)` clock reading.  Returns the log the service
returns together with the resulting store state. -/
def record_habit (habits : List Habit) (s : Store)
    (target_date : Nat) (habit_id : String) (value : ℚ) (now : Nat) :
    Except PyExc (DailyLog × Store) :=
  match findHabit habits habit_id with
  | none => .error (.valueError (.recordHabitDoesNotExist habit_id))
  | some _ =>
    let log := get_or_create s target_date
    let entry : HabitEntry := ⟨habit_id, target_date, value, now, .manual⟩
    match log.add_or_update_entry entry with
    | .error e => .error e
    | .ok log' => .ok (log', save_log log' s)

/-- Source `DailyLogService._find_provider(habit)`: first registered provider whose
name equals the habit's configured `"provider"` entry (Python treats a
missing or empty string as falsy). -/
def find_provider (providers : List DataProvider) (habit : Habit) :
    Option DataProvider :=
  match habit.provider_config with
  | none => none
  | some config =>
    match pyDictGet? "provider" config with
    | none => none
    | some target =>
      if target = "" then none
      else providers.find? fun p => p.provider_name == target

/-- The `for habit in automatic_habits:` loop body of
`sync_automatic_habits`, over the remaining habits.  An exception raised by
a provider's `fetch_data` propagates: there is no `try`/`except` in the
loop. -/
def syncLoop (providers : List DataProvider) (target_date : Nat) (now : Nat) :
    List Habit → DailyLog → Except PyExc DailyLog
  | [], log => .ok log
  | habit :: rest, log =>
    match find_provider providers habit with
    | none => syncLoop providers target_date now rest log
    | some provider =>
      match provider.fetch_data habit target_date with
      | .error e => .error e
      | .ok none => syncLoop providers target_date now rest log
      | .ok (some value) =>
        match log.add_or_update_entry
            ⟨habit.id, target_date, value, now, .automatic⟩ with
        | .error e => .error e
        | .ok log' => syncLoop providers target_date now rest log'

/-- Source `DailyLogService.sync_automatic_habits(target_date)`.  Returns the log
the service returns together with the resulting store state; when an
exception escapes the loop, `self.log_repo.save(log)` is never reached. -/
def sync_automatic_habits (providers : List DataProvider)
    (habits : List Habit) (s : Store) (target_date : Nat) (now : Nat) :
    Except PyExc (DailyLog × Store) :=
  let log := get_or_create s target_date
  let automatic_habits := habits.filter Habit.is_automatic
  match syncLoop providers target_date now automatic_habits log with
  | .error e => .error e
  | .ok log' => .ok (log', save_log log' s)

/-! ## `GoalService` (`application/goal_service.py`) -/

/-- Source `GoalService.update_goal(goal_id, target_value, comparison, end_date,
description)` — a partial update: only non-`None` arguments are applied.
Returns the updated goal and the resulting goal store. -/
def update_goal (goals : List Goal) (goal_id : String)
    (target_value : Option ℚ) (comparison : Option GoalComparison)
    (end_date : Option Nat) (description : Option String) :
    Except PyExc (Goal × List Goal) :=
  match findGoal goals goal_id with
  | none => .error (.goalNotFoundError goal_id)
  | some goal =>
    let goal := match target_value with
      | some v => { goal with target_value := v }
      | none => goal
    let goal := match comparison with
      | some c => { goal with comparison := c }
      | none => goal
    match end_date with
    | some d =>
      if d < goal.start_date then
        .error (.valueError .endDateBeforeStartDate)
      else
        let goal := { goal with end_date := some d }
        let goal := match description with
          | some desc => { goal with description := desc }
          | none => goal
        .ok (goal, saveGoal goal goals)
    | none =>
      let goal := match description with
        | some desc => { goal with description := desc }
        | none => goal
      .ok (goal, saveGoal goal goals)

/-- A Python `date` seen through its calendar components, as the goal
service reads them (`check_date.weekday()`, `check_date.replace(...)`,
`check_date.month`); `toOrd` is the ordinal the entry store compares by. -/
structure Ymd where
  year : Nat
  month : Nat
  day : Nat
deriving DecidableEq

/-- Python `date.toordinal()` of a calendar date. -/
def Ymd.toOrd (d : Ymd) : Nat :=
  ymd2ord d.year d.month d.day

/-- Source `GoalService._get_actual_value(goal, check_date)`: the period-aggregated
actual value, `None` when the period window holds no entries. -/
def get_actual_value (s : Store) (goal : Goal) (check_date : Ymd) : Option ℚ :=
  match goal.period with
  | .daily =>
    let entries :=
      get_entries_by_habit s goal.habit_id check_date.toOrd check_date.toOrd
    if entries.isEmpty then none
    else some (entries.map (·.value)).sum
  | .weekly =>
    let days_since_monday := weekday check_date.toOrd
    let week_start := check_date.toOrd - days_since_monday
    let week_end := week_start + 6
    let entries := get_entries_by_habit s goal.habit_id week_start week_end
    if entries.isEmpty then none
    else some (entries.map (·.value)).sum
  | .monthly =>
    let month_start := ymd2ord check_date.year check_date.month 1
    let month_end :=
      if check_date.month = 12 then ymd2ord check_date.year 12 31
      else ymd2ord check_date.year (check_date.month + 1) 1 - 1
    let entries := get_entries_by_habit s goal.habit_id month_start month_end
    if entries.isEmpty then none
    else some (entries.map (·.value)).sum

/-- The dict returned by `GoalService.check_goal_progress`: keys that a
branch does not put in the dict are `none`. -/
structure GoalProgressResult where
  is_active : Bool
  actual_value : Option ℚ
  is_met : Option Bool := none
  target_value : Option ℚ := none
  comparison : Option GoalComparison := none
deriving DecidableEq

/-- Source `GoalService.check_goal_progress(goal_id, check_date)`. -/
def check_goal_progress (goals : List Goal) (s : Store)
    (goal_id : String) (check_date : Ymd) :
    Except PyExc GoalProgressResult :=
  match findGoal goals goal_id with
  | none => .error (.goalNotFoundError goal_id)
  | some goal =>
    if ¬ goal.is_active check_date.toOrd then
      .ok ⟨false, none, none, none, none⟩
    else
      match get_actual_value s goal check_date with
      | none => .ok ⟨true, none, none, none, none⟩
      | some actual_value =>
        .ok ⟨true, some actual_value, some (goal.is_met actual_value),
             some goal.target_value, some goal.comparison⟩

/-! ## Generic infrastructure lemmas -/

instance {ε α : Type} [DecidableEq ε] [DecidableEq α] :
    DecidableEq (Except ε α) := fun x y =>
  match x, y with
  | .ok a, .ok b =>
      if h : a = b then .isTrue (by rw [h]) else .isFalse (by simp [h])
  | .error a, .error b =>
      if h : a = b then .isTrue (by rw [h]) else .isFalse (by simp [h])
  | .ok _, .error _ => .isFalse (by simp)
  | .error _, .ok _ => .isFalse (by simp)

theorem find?_congr_mem {α : Type} {p q : α → Bool} :
    ∀ {l : List α}, (∀ a ∈ l, p a = q a) → l.find? p = l.find? q
  | [], _ => rfl
  | a :: l, h => by
      have ha := h a (List.mem_cons_self a l)
      by_cases hpa : p a = true
      · rw [List.find?_cons_of_pos _ hpa, List.find?_cons_of_pos _ (ha ▸ hpa)]
      · rw [List.find?_cons_of_neg _ hpa, List.find?_cons_of_neg _ (ha ▸ hpa)]
        exact find?_congr_mem fun b hb => h b (List.mem_cons_of_mem a hb)

theorem pyDictGet?_insert_self {α β : Type} [DecidableEq α] (k : α) (v : β) :
    ∀ l : List (α × β), pyDictGet? k (pyDictInsert k v l) = some v
  | [] => by simp [pyDictInsert, pyDictGet?]
  | (k', v') :: rest => by
      by_cases h : k' = k
      · simp [pyDictInsert, pyDictGet?, h]
      · simp [pyDictInsert, pyDictGet?, h, pyDictGet?_insert_self k v rest]

theorem pyDictGet?_insert_ne {α β : Type} [DecidableEq α] {k₀ k : α} (v : β)
    (hne : k₀ ≠ k) :
    ∀ l : List (α × β), pyDictGet? k (pyDictInsert k₀ v l) = pyDictGet? k l
  | [] => by simp [pyDictInsert, pyDictGet?, hne]
  | (k', v') :: rest => by
      by_cases h : k' = k₀
      · subst h
        simp [pyDictInsert, pyDictGet?, hne]
      · simp only [pyDictInsert, if_neg h, pyDictGet?,
          pyDictGet?_insert_ne v hne rest]

/-- Looking a key up in a Python dict built by inserting rows with pairwise
distinct keys: the first (equivalently only) matching row wins. -/
theorem pyDictGet?_foldl_insert {α β γ : Type} [DecidableEq α]
    (key : γ → α) (val : γ → β) (k : α) :
    ∀ (rows : List γ) (acc : List (α × β)), (rows.map key).Nodup →
      pyDictGet? k (rows.foldl (fun m r => pyDictInsert (key r) (val r) m) acc)
        = match rows.find? (fun r => key r == k) with
          | some r => some (val r)
          | none => pyDictGet? k acc
  | [], _, _ => rfl
  | r :: rows, acc, hnd => by
      have hnd' : (rows.map key).Nodup := (List.nodup_cons.mp hnd).2
      have hkey : key r ∉ rows.map key := (List.nodup_cons.mp hnd).1
      rw [List.foldl_cons, pyDictGet?_foldl_insert key val k rows _ hnd']
      by_cases hk : key r = k
      · have hfind : rows.find? (fun r' => key r' == k) = none := by
          rw [List.find?_eq_none]
          intro x hx hbeq
          exact hkey (hk ▸ (beq_iff_eq.mp hbeq) ▸ List.mem_map_of_mem key hx)
        have hfc : List.find? (fun r' => key r' == k) (r :: rows) = some r := by
          have hb : (key r == k) = true := beq_iff_eq.mpr hk
          simp [List.find?_cons, hb]
        rw [hfind, hfc, ← hk]
        exact pyDictGet?_insert_self (key r) (val r) acc
      · have hbeq : (key r == k) = false := beq_eq_false_iff_ne.mpr hk
        rw [List.find?_cons_of_neg _ (by simp [hbeq])]
        cases hfind : rows.find? (fun r' => key r' == k) <;>
          simp [hfind, pyDictGet?_insert_ne (val r) hk acc]

/-- Dict assignment `pyDictInsert` only ever produces pairs that were present or the
inserted pair. -/
theorem mem_pyDictInsert {α β : Type} [DecidableEq α] {k : α} {v : β} :
    ∀ {l : List (α × β)} {p : α × β},
      p ∈ pyDictInsert k v l → p = (k, v) ∨ p ∈ l
  | [], p, h => Or.inl (by simpa [pyDictInsert] using h)
  | (k', v') :: rest, p, h => by
      by_cases hk : k' = k
      · simp only [pyDictInsert, if_pos hk, List.mem_cons] at h
        rcases h with h | h
        · exact Or.inl h
        · exact Or.inr (List.mem_cons_of_mem _ h)
      · simp only [pyDictInsert, if_neg hk, List.mem_cons] at h
        rcases h with h | h
        · exact Or.inr (h ▸ List.mem_cons_self _ _)
        · rcases mem_pyDictInsert h with h' | h'
          · exact Or.inl h'
          · exact Or.inr (List.mem_cons_of_mem _ h')

/-- Keys stay pairwise distinct under Python dict assignment. -/
theorem pyDictInsert_keys_nodup {α β : Type} [DecidableEq α] (k : α) (v : β) :
    ∀ {l : List (α × β)}, (l.map Prod.fst).Nodup →
      ((pyDictInsert k v l).map Prod.fst).Nodup
  | [], _ => by simp [pyDictInsert]
  | (k', v') :: rest, hnd => by
      obtain ⟨hk', hrest⟩ :=
        List.nodup_cons.mp (show (k' :: rest.map Prod.fst).Nodup from hnd)
      by_cases hk : k' = k
      · subst hk
        simp only [pyDictInsert, if_pos rfl]
        exact show (k' :: rest.map Prod.fst).Nodup from
          List.nodup_cons.mpr ⟨hk', hrest⟩
      · simp only [pyDictInsert, if_neg hk, List.map_cons]
        refine List.nodup_cons.mpr ⟨?_, pyDictInsert_keys_nodup k v hrest⟩
        intro hmem
        rcases List.mem_map.mp hmem with ⟨p, hp, hfst⟩
        rcases mem_pyDictInsert hp with h' | h'
        · exact hk (by rw [← hfst, h'])
        · exact hk' (hfst ▸ List.mem_map_of_mem Prod.fst h')

/-- A dict with pairwise distinct keys holds exactly one pair under a key
that a lookup finds. -/
theorem pyDict_countP_eq_one {α β : Type} [DecidableEq α] {k : α} {v : β} :
    ∀ {l : List (α × β)}, (l.map Prod.fst).Nodup →
      pyDictGet? k l = some v →
      l.countP (fun p => p.1 == k) = 1
  | [], _, hget => by simp [pyDictGet?] at hget
  | (k', v') :: rest, hnd, hget => by
      obtain ⟨hk', hrest⟩ :=
        List.nodup_cons.mp (show (k' :: rest.map Prod.fst).Nodup from hnd)
      by_cases hk : k' = k
      · subst hk
        have : rest.countP (fun p => p.1 == k') = 0 := by
          rw [List.countP_eq_zero]
          intro p hp hbeq
          exact hk' ((beq_iff_eq.mp hbeq) ▸ List.mem_map_of_mem Prod.fst hp)
        simp [List.countP_cons, this]
      · simp only [pyDictGet?, if_neg hk] at hget
        simp [List.countP_cons, pyDict_countP_eq_one hrest hget,
          beq_eq_false_iff_ne.mpr hk]

/-! ## Entry-store lemmas -/

theorem mem_get_entries_by_habit {s : Store} {habit_id : String}
    {a b : Nat} {e : HabitEntry} :
    e ∈ get_entries_by_habit s habit_id a b ↔
      e ∈ s ∧ e.habit_id = habit_id ∧ a ≤ e.date ∧ e.date ≤ b := by
  simp [get_entries_by_habit, List.mem_filter]

theorem get_entries_by_habit_empty_of_inverted {s : Store}
    {habit_id : String} {a b : Nat} (h : b < a) :
    get_entries_by_habit s habit_id a b = [] := by
  rw [get_entries_by_habit, List.filter_eq_nil_iff]
  intro e _ hcond
  rw [decide_eq_true_eq] at hcond
  obtain ⟨-, h1, h2⟩ := hcond
  omega

theorem lookupStore_upsert_self (e : HabitEntry) :
    ∀ s : Store, lookupStore (storeUpsert e s) e.date e.habit_id = some e
  | [] => by simp [storeUpsert, lookupStore, List.find?]
  | e' :: rest => by
      by_cases h : e'.date = e.date ∧ e'.habit_id = e.habit_id
      · simp [storeUpsert, h, lookupStore, List.find?_cons]
      · simp only [storeUpsert, if_neg h]
        simpa [lookupStore, List.find?_cons, h]
          using lookupStore_upsert_self e rest

theorem lookupStore_upsert_ne (e : HabitEntry) {d : Nat} {k : String}
    (hne : e.date ≠ d ∨ e.habit_id ≠ k) :
    ∀ s : Store, lookupStore (storeUpsert e s) d k = lookupStore s d k
  | [] => by
      have he : ¬(e.date = d ∧ e.habit_id = k) := by tauto
      simp [storeUpsert, lookupStore, List.find?, he]
  | e' :: rest => by
      by_cases h : e'.date = e.date ∧ e'.habit_id = e.habit_id
      · have he' : ¬(e'.date = d ∧ e'.habit_id = k) := by
          rw [h.1, h.2]; tauto
        have he : ¬(e.date = d ∧ e.habit_id = k) := by tauto
        simp [storeUpsert, if_pos h, lookupStore, List.find?_cons, he, he']
      · by_cases h' : e'.date = d ∧ e'.habit_id = k
        · simp only [storeUpsert, if_neg h]
          simp [lookupStore, List.find?_cons, h'.1, h'.2]
        · simp only [storeUpsert, if_neg h]
          simpa [lookupStore, List.find?_cons, h']
            using lookupStore_upsert_ne e hne rest

/-- Membership in an upserted store. -/
theorem mem_storeUpsert {e e'' : HabitEntry} :
    ∀ {s : Store}, e'' ∈ storeUpsert e s → e'' = e ∨ e'' ∈ s
  | [], h => Or.inl (by simpa [storeUpsert] using h)
  | e' :: rest, h => by
      by_cases hc : e'.date = e.date ∧ e'.habit_id = e.habit_id
      · simp only [storeUpsert, if_pos hc, List.mem_cons] at h
        rcases h with h | h
        · exact Or.inl h
        · exact Or.inr (List.mem_cons_of_mem _ h)
      · simp only [storeUpsert, if_neg hc, List.mem_cons] at h
        rcases h with h | h
        · exact Or.inr (h ▸ List.mem_cons_self _ _)
        · rcases mem_storeUpsert h with h' | h'
          · exact Or.inl h'
          · exact Or.inr (List.mem_cons_of_mem _ h')

theorem storeUpsert_keyUnique {e : HabitEntry} :
    ∀ {s : Store}, storeKeyUnique s → storeKeyUnique (storeUpsert e s)
  | [], _ => by
      simp [storeUpsert, storeKeyUnique]
  | e' :: rest, hku => by
      have hpair := (List.pairwise_cons.mp hku)
      by_cases h : e'.date = e.date ∧ e'.habit_id = e.habit_id
      · simp only [storeUpsert, if_pos h]
        exact List.pairwise_cons.mpr
          ⟨fun e'' he'' => by
            have := hpair.1 e'' he''
            rw [h.1, h.2] at this
            exact this,
          hpair.2⟩
      · simp only [storeUpsert, if_neg h]
        refine List.pairwise_cons.mpr ⟨?_, storeUpsert_keyUnique hpair.2⟩
        intro e'' he''
        rcases mem_storeUpsert he'' with h' | h'
        · subst h'
          tauto
        · exact hpair.1 e'' h'

/-! ## Saving a daily log back to the store -/

theorem save_fold_preserve {d : Nat} {k : String} :
    ∀ (l : List (String × HabitEntry)) (s : Store),
      (∀ p ∈ l, p.2.date ≠ d ∨ p.2.habit_id ≠ k) →
      lookupStore (l.foldl (fun acc p => storeUpsert p.2 acc) s) d k
        = lookupStore s d k
  | [], _, _ => rfl
  | p :: l, s, hne => by
      rw [List.foldl_cons,
        save_fold_preserve l _ fun q hq => hne q (List.mem_cons_of_mem p hq),
        lookupStore_upsert_ne p.2 (hne p (List.mem_cons_self p l)) s]

theorem save_fold_lookup {d : Nat} {k : String} {e : HabitEntry} :
    ∀ (l : List (String × HabitEntry)) (s : Store),
      (l.map Prod.fst).Nodup →
      (∀ p ∈ l, p.2.habit_id = p.1 ∧ p.2.date = d) →
      (k, e) ∈ l →
      lookupStore (l.foldl (fun acc p => storeUpsert p.2 acc) s) d k = some e
  | [], _, _, _, hmem => absurd hmem (List.not_mem_nil _)
  | p :: l, s, hnd, hall, hmem => by
      obtain ⟨hk, hrest⟩ :=
        List.nodup_cons.mp (show (p.1 :: l.map Prod.fst).Nodup from hnd)
      rw [List.foldl_cons]
      rcases List.mem_cons.mp hmem with hp | hp
      · subst hp
        rw [save_fold_preserve l _ ?later]
        case later =>
          intro q hq
          right
          intro hqk
          have hq1 : q.1 = k :=
            ((hall q (List.mem_cons_of_mem _ hq)).1).symm.trans hqk
          refine hk ?_
          show k ∈ l.map Prod.fst
          rw [← hq1]
          exact List.mem_map_of_mem Prod.fst hq
        have he := hall (k, e) (List.mem_cons_self _ _)
        have : lookupStore (storeUpsert e s) e.date e.habit_id = some e :=
          lookupStore_upsert_self e s
        rwa [he.1, he.2] at this
      · exact save_fold_lookup l _ hrest
          (fun q hq => hall q (List.mem_cons_of_mem _ hq)) hp

theorem save_fold_keyUnique :
    ∀ (l : List (String × HabitEntry)) {s : Store}, storeKeyUnique s →
      storeKeyUnique (l.foldl (fun acc p => storeUpsert p.2 acc) s)
  | [], _, hs => hs
  | p :: l, s, hs => by
      rw [List.foldl_cons]
      exact save_fold_keyUnique l (storeUpsert_keyUnique hs)

theorem save_log_lookup {log : DailyLog} {s : Store} {k : String}
    {e : HabitEntry}
    (hnd : (log.entries.map Prod.fst).Nodup)
    (hall : ∀ p ∈ log.entries, p.2.habit_id = p.1 ∧ p.2.date = log.date)
    (hmem : (k, e) ∈ log.entries) :
    lookupStore (save_log log s) log.date k = some e :=
  save_fold_lookup log.entries s hnd hall hmem

/-! ## Reading a date's log back from the store -/

theorem foldl_pyDictInsert_keys_nodup {α β γ : Type} [DecidableEq α]
    (key : γ → α) (val : γ → β) :
    ∀ (rows : List γ) (acc : List (α × β)), (acc.map Prod.fst).Nodup →
      ((rows.foldl (fun m r => pyDictInsert (key r) (val r) m) acc).map
        Prod.fst).Nodup
  | [], _, hacc => hacc
  | r :: rows, acc, hacc => by
      rw [List.foldl_cons]
      exact foldl_pyDictInsert_keys_nodup key val rows _
        (pyDictInsert_keys_nodup (key r) (val r) hacc)

/-- The dict of `get_by_date` rows: looking up a habit finds exactly the
table row at that key (under the table's key invariant). -/
theorem get_by_date_of_lookup {s : Store} {d : Nat} {k : String}
    {e : HabitEntry} (hku : storeKeyUnique s)
    (hget : lookupStore s d k = some e) :
    ∃ dl, get_by_date s d = some dl ∧
      pyDictGet? k dl.entries = some e ∧
      dl.entries.countP (fun p => p.1 == k) = 1 := by
  have hget' :
      List.find? (fun e' => decide (e'.date = d ∧ e'.habit_id = k)) s
        = some e := hget
  have hprops := List.find?_some hget'
  simp only [decide_eq_true_eq] at hprops
  have hmem : e ∈ s.filter fun e' => decide (e'.date = d) :=
    List.mem_filter.mpr
      ⟨List.mem_of_find?_eq_some hget', decide_eq_true hprops.1⟩
  have hne : ((s.filter fun e' => decide (e'.date = d)).isEmpty) = false := by
    rcases hl : s.filter fun e' => decide (e'.date = d) with _ | ⟨a, l⟩
    · rw [hl] at hmem
      exact absurd hmem (List.not_mem_nil e)
    · rw [hl]
      rfl
  have hrowsnd :
      (((s.filter fun e' => decide (e'.date = d)).map (·.habit_id)).Nodup) := by
    refine (List.pairwise_map).mpr ?_
    have hpw : (s.filter fun e' => decide (e'.date = d)).Pairwise
        (fun e₁ e₂ => e₁.date ≠ e₂.date ∨ e₁.habit_id ≠ e₂.habit_id) :=
      hku.sublist (List.filter_sublist s)
    refine hpw.imp_of_mem ?_
    intro e₁ e₂ h₁ h₂ hr
    have hd₁ := (List.mem_filter.mp h₁).2
    have hd₂ := (List.mem_filter.mp h₂).2
    simp only [decide_eq_true_eq] at hd₁ hd₂
    rcases hr with hr | hr
    · exact absurd (hd₁.trans hd₂.symm) hr
    · exact hr
  have hfind :
      ((s.filter fun e' => decide (e'.date = d)).find?
        fun e' => e'.habit_id == k) = some e := by
    rw [List.find?_filter, ← hget']
    exact find?_congr_mem fun a _ => by
      by_cases h1 : a.date = d <;> by_cases h2 : a.habit_id = k <;>
        simp [h1, h2]
  have hdict :
      pyDictGet? k ((s.filter fun e' => decide (e'.date = d)).foldl
        (fun es r => pyDictInsert r.habit_id r es) []) = some e := by
    have h := pyDictGet?_foldl_insert (fun r : HabitEntry => r.habit_id)
      (fun r => r) k (s.filter fun e' => decide (e'.date = d)) [] hrowsnd
    rw [hfind] at h
    exact h
  refine ⟨⟨d, (s.filter fun e' => decide (e'.date = d)).foldl
      (fun es r => pyDictInsert r.habit_id r es) []⟩, ?_, hdict,
    pyDict_countP_eq_one
      (foldl_pyDictInsert_keys_nodup (fun r : HabitEntry => r.habit_id)
        (fun r => r) _ [] (by simp)) hdict⟩
  simp [get_by_date, hne]

theorem mem_foldl_pyDictInsert {α β γ : Type} [DecidableEq α]
    (key : γ → α) (val : γ → β) :
    ∀ (rows : List γ) (acc : List (α × β)) (p : α × β),
      p ∈ rows.foldl (fun m r => pyDictInsert (key r) (val r) m) acc →
      p ∈ acc ∨ ∃ r ∈ rows, p = (key r, val r)
  | [], _, _, h => Or.inl h
  | r :: rows, acc, p, h => by
      rw [List.foldl_cons] at h
      rcases mem_foldl_pyDictInsert key val rows _ p h with h' | ⟨r', hr', hp⟩
      · rcases mem_pyDictInsert h' with h'' | h''
        · exact Or.inr ⟨r, List.mem_cons_self r rows, h''⟩
        · exact Or.inl h''
      · exact Or.inr ⟨r', List.mem_cons_of_mem r hr', hp⟩

theorem pyDictInsert_mem_self {α β : Type} [DecidableEq α] (k : α) (v : β) :
    ∀ l : List (α × β), (k, v) ∈ pyDictInsert k v l
  | [] => List.mem_cons_self _ _
  | (k', v') :: rest => by
      by_cases h : k' = k
      · simp [pyDictInsert, h]
      · simp only [pyDictInsert, if_neg h]
        exact List.mem_cons_of_mem _ (pyDictInsert_mem_self k v rest)

/-- What `get_by_date` returns is a well-formed log of the requested date:
its dict is keyed by habit id without duplicates, and every entry belongs to
that date. -/
theorem get_by_date_props {s : Store} {dt : Nat} {dl : DailyLog}
    (h : get_by_date s dt = some dl) :
    dl.date = dt ∧ (dl.entries.map Prod.fst).Nodup ∧
      ∀ p ∈ dl.entries, p.2.habit_id = p.1 ∧ p.2.date = dt := by
  by_cases hne : ((s.filter fun e => decide (e.date = dt)).isEmpty) = true
  · rw [get_by_date] at h
    simp only [hne, if_pos] at h
    exact absurd h (by simp)
  · rw [get_by_date] at h
    simp only [Bool.not_eq_true] at hne
    simp only [hne, Bool.false_eq_true, if_false, Option.some.injEq] at h
    subst h
    refine ⟨rfl, foldl_pyDictInsert_keys_nodup (fun r : HabitEntry => r.habit_id)
      (fun r => r) _ [] (by simp), ?_⟩
    intro p hp
    rcases mem_foldl_pyDictInsert (fun r : HabitEntry => r.habit_id)
        (fun r => r) _ [] p hp with h' | ⟨r, hr, hp'⟩
    · exact absurd h' (List.not_mem_nil p)
    · have hrd := (List.mem_filter.mp hr).2
      simp only [decide_eq_true_eq] at hrd
      rw [hp']
      exact ⟨rfl, hrd⟩

/-- Service helper `get_or_create` always hands back a well-formed log of the requested
date. -/
theorem get_or_create_props (s : Store) (dt : Nat) :
    (get_or_create s dt).date = dt ∧
      ((get_or_create s dt).entries.map Prod.fst).Nodup ∧
      ∀ p ∈ (get_or_create s dt).entries,
        p.2.habit_id = p.1 ∧ p.2.date = dt := by
  rw [get_or_create]
  cases hgb : get_by_date s dt with
  | none => exact ⟨rfl, by simp, by simp⟩
  | some dl => exact get_by_date_props hgb

/-- A successful manual recording leaves the table key-unique and the
`(date, habit)` row equal to the freshly written manual entry. -/
theorem record_habit_ok {habits : List Habit} {s : Store} {hid : String}
    (dt : Nat) (v : ℚ) (now : Nat)
    (hfound : ∃ h, findHabit habits hid = some h)
    (hku : storeKeyUnique s) :
    ∃ log s', record_habit habits s dt hid v now = .ok (log, s') ∧
      storeKeyUnique s' ∧
      lookupStore s' dt hid = some ⟨hid, dt, v, now, .manual⟩ := by
  obtain ⟨h, hf⟩ := hfound
  obtain ⟨hdate, hnd, hall⟩ := get_or_create_props s dt
  have hok : record_habit habits s dt hid v now =
      .ok ({ get_or_create s dt with
              entries := pyDictInsert hid ⟨hid, dt, v, now, .manual⟩
                (get_or_create s dt).entries },
            save_log { get_or_create s dt with
              entries := pyDictInsert hid ⟨hid, dt, v, now, .manual⟩
                (get_or_create s dt).entries } s) := by
    simp only [record_habit, hf, DailyLog.add_or_update_entry]
    rw [if_neg (by simp [hdate])]
  refine ⟨_, _, hok, save_fold_keyUnique _ hku, ?_⟩
  have hall' : ∀ p ∈ pyDictInsert hid (⟨hid, dt, v, now, .manual⟩ : HabitEntry)
      (get_or_create s dt).entries,
      p.2.habit_id = p.1 ∧ p.2.date =
        ({ get_or_create s dt with
            entries := pyDictInsert hid ⟨hid, dt, v, now, .manual⟩
              (get_or_create s dt).entries } : DailyLog).date := by
    intro p hp
    rcases mem_pyDictInsert hp with h' | h'
    · rw [h']
      exact ⟨rfl, hdate.symm⟩
    · obtain ⟨h1, h2⟩ := hall p h'
      exact ⟨h1, h2.trans hdate.symm⟩
  have hlookup := @save_log_lookup
    { get_or_create s dt with
      entries := pyDictInsert hid ⟨hid, dt, v, now, .manual⟩
        (get_or_create s dt).entries }
    s hid ⟨hid, dt, v, now, .manual⟩
    (pyDictInsert_keys_nodup _ _ hnd) hall'
    (pyDictInsert_mem_self _ _ _)
  rw [show ({ get_or_create s dt with
      entries := pyDictInsert hid (⟨hid, dt, v, now, .manual⟩ : HabitEntry)
        (get_or_create s dt).entries } : DailyLog).date = dt from hdate]
    at hlookup
  exact hlookup

/-! ## The syncLoop error propagation -/

theorem syncLoop_cons_no_provider {providers : List DataProvider}
    {dt now : Nat} {habit : Habit} {hs : List Habit} {log : DailyLog}
    (hfp : find_provider providers habit = none) :
    syncLoop providers dt now (habit :: hs) log =
      syncLoop providers dt now hs log := by
  simp [syncLoop, hfp]

theorem syncLoop_cons_fetch_error {providers : List DataProvider}
    {dt now : Nat} {habit : Habit} {hs : List Habit} {log : DailyLog}
    {p : DataProvider} {e : PyExc}
    (hfp : find_provider providers habit = some p)
    (hfd : p.fetch_data habit dt = .error e) :
    syncLoop providers dt now (habit :: hs) log = .error e := by
  simp [syncLoop, hfp, hfd]

theorem syncLoop_cons_fetch_none {providers : List DataProvider}
    {dt now : Nat} {habit : Habit} {hs : List Habit} {log : DailyLog}
    {p : DataProvider}
    (hfp : find_provider providers habit = some p)
    (hfd : p.fetch_data habit dt = .ok none) :
    syncLoop providers dt now (habit :: hs) log =
      syncLoop providers dt now hs log := by
  simp [syncLoop, hfp, hfd]

theorem syncLoop_cons_fetch_some {providers : List DataProvider}
    {dt now : Nat} {habit : Habit} {hs : List Habit} {log : DailyLog}
    {p : DataProvider} {v : ℚ}
    (hfp : find_provider providers habit = some p)
    (hfd : p.fetch_data habit dt = .ok (some v))
    (hdate : log.date = dt) :
    syncLoop providers dt now (habit :: hs) log =
      syncLoop providers dt now hs
        { log with entries := pyDictInsert habit.id
                     ⟨habit.id, dt, v, now, .automatic⟩ log.entries } := by
  simp [syncLoop, hfp, hfd, DailyLog.add_or_update_entry, hdate]

/-- An automatic-habit sync pass fails exactly when some automatic habit has
a matched provider whose fetch raises; nothing in the loop catches the
exception. -/
theorem syncLoop_error_iff (providers : List DataProvider) (dt now : Nat) :
    ∀ (hs : List Habit) (log : DailyLog), log.date = dt →
      ((∃ e, syncLoop providers dt now hs log = .error e) ↔
        ∃ h ∈ hs, ∃ p, find_provider providers h = some p ∧
          ∃ e, p.fetch_data h dt = .error e)
  | [], log, _ => by simp [syncLoop]
  | habit :: hs, log, hdate => by
      cases hfp : find_provider providers habit with
      | none =>
          rw [syncLoop_cons_no_provider hfp,
            syncLoop_error_iff providers dt now hs log hdate]
          simp only [List.mem_cons]
          constructor
          · rintro ⟨h, hmem, hrest⟩
            exact ⟨h, Or.inr hmem, hrest⟩
          · rintro ⟨h, hmem | hmem, p', hp', e', he'⟩
            · subst hmem
              rw [hfp] at hp'
              cases hp'
            · exact ⟨h, hmem, p', hp', e', he'⟩
      | some p =>
          cases hfd : p.fetch_data habit dt with
          | error e =>
              rw [syncLoop_cons_fetch_error hfp hfd]
              constructor
              · intro _
                exact ⟨habit, List.mem_cons_self _ _, p, hfp, e, hfd⟩
              · intro _
                exact ⟨e, rfl⟩
          | ok value =>
              have hstep :
                  ∃ log', log'.date = dt ∧
                    syncLoop providers dt now (habit :: hs) log =
                      syncLoop providers dt now hs log' := by
                cases value with
                | none => exact ⟨log, hdate, syncLoop_cons_fetch_none hfp hfd⟩
                | some v =>
                    refine ⟨_, ?_, syncLoop_cons_fetch_some hfp hfd hdate⟩
                    exact hdate
              obtain ⟨log', hdate', hstep⟩ := hstep
              rw [hstep, syncLoop_error_iff providers dt now hs log' hdate']
              simp only [List.mem_cons]
              constructor
              · rintro ⟨h, hmem, hrest⟩
                exact ⟨h, Or.inr hmem, hrest⟩
              · rintro ⟨h, hmem | hmem, p', hp', e', he'⟩
                · subst hmem
                  rw [hfp] at hp'
                  cases hp'
                  rw [hfd] at he'
                  cases he'
                · exact ⟨h, hmem, p', hp', e', he'⟩

/-! ## Claims -/

/-- Claim C1 (amended): during `SyncAutomatic(date)` a `ProviderError` (or
any exception) raised by a matched provider's fetch is **not** caught: the
sync of the remaining automatic habits is abandoned, the log is never
persisted, and the whole sync aborts with that error.  Formally, the sync
raises if and only if some automatic habit's matched provider's fetch
raises; only a missing provider or a `None` fetch result is treated as "no
data" for that habit. -/
theorem claim_C1 (providers : List DataProvider) (habits : List Habit)
    (s : Store) (dt now : Nat) :
    (∃ e, sync_automatic_habits providers habits s dt now = .error e) ↔
      ∃ h ∈ habits.filter Habit.is_automatic, ∃ p,
        find_provider providers h = some p ∧
        ∃ e, p.fetch_data h dt = .error e := by
  have hdate : (get_or_create s dt).date = dt := (get_or_create_props s dt).1
  rw [← syncLoop_error_iff providers dt now (habits.filter Habit.is_automatic)
    (get_or_create s dt) hdate]
  rw [sync_automatic_habits]
  cases hsl : syncLoop providers dt now (habits.filter Habit.is_automatic)
      (get_or_create s dt) <;> simp

/-- Claim C1, counterexample to the claim as stated: with two automatic
habits whose providers are both registered, the first provider raising a
`ProviderError` aborts the whole sync — the error propagates, the second
habit is never recorded and no log is persisted, contradicting "the failure
is caught locally ... and the sync of the remaining automatic habits still
runs to completion and persists the log". -/
theorem claim_C1_counterexample :
    sync_automatic_habits
      [⟨"garmin", fun _ _ => .error (.providerError "garmin")⟩,
       ⟨"github", fun _ _ => .ok (some 5)⟩]
      [⟨"auto_steps", "Auto Steps", "steps", .automatic, "", none,
          some [("provider", "garmin")]⟩,
       ⟨"auto_commits", "Commits", "count", .automatic, "", none,
          some [("provider", "github")]⟩]
      [] 738886 0
      = .error (.providerError "garmin") := by
  rfl

/-- Claim C2 (amended): the core Statistics operation performs no date-range
validation.  Called directly with `start > end` it does not raise
`InvalidDateRangeError` (which no code in the core ever raises); it returns
a normal zero result over the empty inverted range, whose `days_in_range`
field `(end - start).days + 1` is non-positive.  Inverted ranges are only
rejected by the HTTP route layer before the service is called. -/
theorem claim_C2 (habits : List Habit) (s : Store) (habit_id : String)
    (h : Habit) (start_date end_date : Nat)
    (hfound : findHabit habits habit_id = some h)
    (hinv : end_date < start_date) :
    get_habit_statistics habits s habit_id start_date end_date =
      .ok ⟨0, 0, 0, 0, 0, 0, (end_date : Int) - (start_date : Int) + 1⟩ ∧
    (end_date : Int) - (start_date : Int) + 1 ≤ 0 := by
  constructor
  · simp only [get_habit_statistics, hfound,
      get_entries_by_habit_empty_of_inverted hinv]
  · omega

/-- Claim C2, witness at a concrete input. -/
theorem claim_C2_witness :
    get_habit_statistics [⟨"steps", "Steps", "steps", .manual, "", none, none⟩]
      [] "steps" 5 3 = .ok ⟨0, 0, 0, 0, 0, 0, (3 : Int) - (5 : Int) + 1⟩ ∧
    (3 : Int) - (5 : Int) + 1 ≤ 0 :=
  claim_C2 [⟨"steps", "Steps", "steps", .manual, "", none, none⟩] [] "steps"
    ⟨"steps", "Steps", "steps", .manual, "", none, none⟩ 5 3 (by decide)
    (by decide)

/-- Claim C2, counterexample to the claim as stated: with an existing habit
and `start = 5 > 3 = end`, the Statistics operation returns a result
(`days_in_range = -1`) instead of raising an `InvalidDateRange` validation
error. -/
theorem claim_C2_counterexample :
    get_habit_statistics [⟨"steps", "Steps", "steps", .manual, "", none, none⟩]
      [] "steps" 5 3 = .ok ⟨0, 0, 0, 0, 0, 0, -1⟩ := by
  decide

/-- Claim C3 (amended): every Analytics Engine operation that takes a habit
(Statistics, CurrentStreak, LongestStreak, CalendarData, Trend,
CompletionRate) first checks the catalog and fails before any computation
when the habit id is unknown — but with a plain `ValueError` ("Habit ...
not found"), not with the `HabitNotFoundError`/`ResourceNotFound` kind,
which the analytics service never raises.  The HTTP routes later translate
this `ValueError` into a 404. -/
theorem claim_C3 (habits : List Habit) (s : Store) (habit_id : String)
    (start_date end_date as_of year month : Nat) (threshold : ℚ)
    (hmiss : findHabit habits habit_id = none) :
    get_habit_statistics habits s habit_id start_date end_date
        = .error (.valueError (.analyticsHabitNotFound habit_id)) ∧
    get_current_streak habits s habit_id as_of
        = .error (.valueError (.analyticsHabitNotFound habit_id)) ∧
    get_longest_streak habits s habit_id start_date end_date
        = .error (.valueError (.analyticsHabitNotFound habit_id)) ∧
    get_calendar_data habits s habit_id year month
        = .error (.valueError (.analyticsHabitNotFound habit_id)) ∧
    get_habit_trend habits s habit_id start_date end_date
        = .error (.valueError (.analyticsHabitNotFound habit_id)) ∧
    get_completion_rate habits s habit_id start_date end_date threshold
        = .error (.valueError (.analyticsHabitNotFound habit_id)) := by
  refine ⟨?_, ?_, ?_, ?_, ?_, ?_⟩ <;>
    simp [get_habit_statistics, get_current_streak, get_longest_streak,
      get_calendar_data, get_habit_trend, get_completion_rate, hmiss]

/-- Claim C3, witness at a concrete input. -/
theorem claim_C3_witness :
    get_habit_statistics [] [] "missing" 1 2
        = .error (.valueError (.analyticsHabitNotFound "missing")) ∧
    get_current_streak [] [] "missing" 7
        = .error (.valueError (.analyticsHabitNotFound "missing")) ∧
    get_longest_streak [] [] "missing" 1 2
        = .error (.valueError (.analyticsHabitNotFound "missing")) ∧
    get_calendar_data [] [] "missing" 2024 2
        = .error (.valueError (.analyticsHabitNotFound "missing")) ∧
    get_habit_trend [] [] "missing" 1 2
        = .error (.valueError (.analyticsHabitNotFound "missing")) ∧
    get_completion_rate [] [] "missing" 1 2 0
        = .error (.valueError (.analyticsHabitNotFound "missing")) :=
  claim_C3 [] [] "missing" 1 2 7 2024 2 0 (by decide)

/-- Claim C3, counterexample to the claim as stated: the analytics
operations fail with a plain `ValueError`, which is not the
`HabitNotFound` (`ResourceNotFound`) exception kind. -/
theorem claim_C3_counterexample :
    get_habit_statistics [] [] "missing" 1 2
        = .error (.valueError (.analyticsHabitNotFound "missing")) ∧
    PyExc.valueError (.analyticsHabitNotFound "missing")
        ≠ PyExc.habitNotFoundError "missing" := by
  decide

/-- Claim C10: a successful goal update mutates only the `target_value`,
`comparison`, `end_date` and `description` fields that were supplied
(non-`None`); `id`, `habit_id`, `period` and `start_date` are unchanged,
and because an omitted field is encoded as `None`, an update can never
reset an existing `end_date` back to `None`. -/
theorem claim_C10 (goals : List Goal) (goal_id : String) (tv : Option ℚ)
    (cmp : Option GoalComparison) (ed : Option Nat) (desc : Option String)
    (g' : Goal) (goals' : List Goal)
    (hok : update_goal goals goal_id tv cmp ed desc = .ok (g', goals')) :
    ∃ g, findGoal goals goal_id = some g ∧
      g'.id = g.id ∧ g'.habit_id = g.habit_id ∧ g'.period = g.period ∧
      g'.start_date = g.start_date ∧
      g'.target_value = tv.getD g.target_value ∧
      g'.comparison = cmp.getD g.comparison ∧
      g'.end_date = (match ed with | some d => some d | none => g.end_date) ∧
      g'.description = desc.getD g.description ∧
      (g'.end_date = none → g.end_date = none ∧ ed = none) ∧
      goals' = saveGoal g' goals := by
  cases hg : findGoal goals goal_id with
  | none =>
      rw [update_goal] at hok
      rw [hg] at hok
      exact absurd hok (by simp)
  | some g =>
      refine ⟨g, rfl, ?_⟩
      rw [update_goal] at hok
      rw [hg] at hok
      rcases tv with _ | tv <;> rcases cmp with _ | cmp <;>
        rcases ed with _ | edd <;> rcases desc with _ | desc <;>
        simp only [] at hok <;>
        try split at hok
      all_goals simp only [Except.ok.injEq, Prod.mk.injEq, reduceCtorEq]
        at hok
      all_goals (obtain ⟨hg', hgl'⟩ := hok; subst hg'; subst hgl'; simp)

/-- Claim C10, witness at a concrete input. -/
theorem claim_C10_witness :
    update_goal
        [⟨"g1", "steps", 10, .greater_than_or_equal, .daily, 5, some 15, ""⟩]
        "g1" (some 42) none (some 20) none =
      .ok (⟨"g1", "steps", 42, .greater_than_or_equal, .daily, 5, some 20, ""⟩,
        [⟨"g1", "steps", 42, .greater_than_or_equal, .daily, 5, some 20, ""⟩]) ∧
    ∃ g, findGoal
        [⟨"g1", "steps", 10, .greater_than_or_equal, .daily, 5, some 15, ""⟩]
        "g1" = some g ∧
      (⟨"g1", "steps", 42, .greater_than_or_equal, .daily, 5, some 20, ""⟩ :
          Goal).id = g.id ∧
      (⟨"g1", "steps", 42, .greater_than_or_equal, .daily, 5, some 20, ""⟩ :
          Goal).habit_id = g.habit_id ∧
      (⟨"g1", "steps", 42, .greater_than_or_equal, .daily, 5, some 20, ""⟩ :
          Goal).period = g.period ∧
      (⟨"g1", "steps", 42, .greater_than_or_equal, .daily, 5, some 20, ""⟩ :
          Goal).start_date = g.start_date ∧
      (⟨"g1", "steps", 42, .greater_than_or_equal, .daily, 5, some 20, ""⟩ :
          Goal).target_value = (some (42 : ℚ)).getD g.target_value ∧
      (⟨"g1", "steps", 42, .greater_than_or_equal, .daily, 5, some 20, ""⟩ :
          Goal).comparison = (none : Option GoalComparison).getD g.comparison ∧
      (⟨"g1", "steps", 42, .greater_than_or_equal, .daily, 5, some 20, ""⟩ :
          Goal).end_date =
        (match some 20 with | some d => some d | none => g.end_date) ∧
      (⟨"g1", "steps", 42, .greater_than_or_equal, .daily, 5, some 20, ""⟩ :
          Goal).description = (none : Option String).getD g.description ∧
      ((⟨"g1", "steps", 42, .greater_than_or_equal, .daily, 5, some 20, ""⟩ :
          Goal).end_date = none → g.end_date = none ∧ some 20 = none) ∧
      [⟨"g1", "steps", 42, .greater_than_or_equal, .daily, 5, some 20, ""⟩] =
        saveGoal
          ⟨"g1", "steps", 42, .greater_than_or_equal, .daily, 5, some 20, ""⟩
          [⟨"g1", "steps", 10, .greater_than_or_equal, .daily, 5, some 15, ""⟩] :=
  ⟨by decide, claim_C10 _ "g1" (some 42) none (some 20) none _ _ (by decide)⟩

/-- Claim C8: recording a manual entry for an existing habit and then
immediately reading that date's log yields exactly that value for that
habit with `source = manual`, and the log holds exactly one entry for the
habit; re-recording the same habit and date with a new value replaces the
prior entry, again leaving exactly one entry (upsert, no duplicates). -/
theorem claim_C8 (habits : List Habit) (s : Store) (hid : String) (dt : Nat)
    (v₁ v₂ : ℚ) (now₁ now₂ : Nat)
    (hfound : ∃ h, findHabit habits hid = some h)
    (hku : storeKeyUnique s) :
    ∃ log₁ s₁ log₂ s₂,
      record_habit habits s dt hid v₁ now₁ = .ok (log₁, s₁) ∧
      (∃ dl, get_by_date s₁ dt = some dl ∧
        pyDictGet? hid dl.entries = some ⟨hid, dt, v₁, now₁, .manual⟩ ∧
        dl.entries.countP (fun p => p.1 == hid) = 1) ∧
      record_habit habits s₁ dt hid v₂ now₂ = .ok (log₂, s₂) ∧
      (∃ dl, get_by_date s₂ dt = some dl ∧
        pyDictGet? hid dl.entries = some ⟨hid, dt, v₂, now₂, .manual⟩ ∧
        dl.entries.countP (fun p => p.1 == hid) = 1) := by
  obtain ⟨log₁, s₁, hrec₁, hku₁, hl₁⟩ := record_habit_ok dt v₁ now₁ hfound hku
  obtain ⟨log₂, s₂, hrec₂, hku₂, hl₂⟩ := record_habit_ok dt v₂ now₂ hfound hku₁
  exact ⟨log₁, s₁, log₂, s₂, hrec₁, get_by_date_of_lookup hku₁ hl₁, hrec₂,
    get_by_date_of_lookup hku₂ hl₂⟩

/-- Claim C8, witness at a concrete input. -/
theorem claim_C8_witness :
    (∃ h, findHabit [⟨"steps", "Steps", "steps", .manual, "", none, none⟩]
        "steps" = some h) ∧
    storeKeyUnique [] ∧
    ∃ log₁ s₁ log₂ s₂,
      record_habit [⟨"steps", "Steps", "steps", .manual, "", none, none⟩] []
          3 "steps" 5000 11 = .ok (log₁, s₁) ∧
      (∃ dl, get_by_date s₁ 3 = some dl ∧
        pyDictGet? "steps" dl.entries = some ⟨"steps", 3, 5000, 11, .manual⟩ ∧
        dl.entries.countP (fun p => p.1 == "steps") = 1) ∧
      record_habit [⟨"steps", "Steps", "steps", .manual, "", none, none⟩] s₁
          3 "steps" 7000 12 = .ok (log₂, s₂) ∧
      (∃ dl, get_by_date s₂ 3 = some dl ∧
        pyDictGet? "steps" dl.entries = some ⟨"steps", 3, 7000, 12, .manual⟩ ∧
        dl.entries.countP (fun p => p.1 == "steps") = 1) :=
  ⟨⟨⟨"steps", "Steps", "steps", .manual, "", none, none⟩, by decide⟩,
   List.Pairwise.nil,
   claim_C8 [⟨"steps", "Steps", "steps", .manual, "", none, none⟩] [] "steps"
     3 5000 7000 11 12
     ⟨⟨"steps", "Steps", "steps", .manual, "", none, none⟩, by decide⟩
     List.Pairwise.nil⟩

/-- The backward walk of `get_current_streak`: starting from `check` with
`fuel` iterations left and `acc` already counted, it adds exactly the
number of consecutive days with entries walking backward from `check`,
stopping at the first day without one, and never examines more than `fuel`
days. -/
theorem streakLoop_spec (s : Store) (hid : String) :
    ∀ (fuel check acc : Nat),
      ∃ k, streakLoop s hid fuel check acc = acc + k ∧ k ≤ fuel ∧
        (∀ i < k, get_entries_by_habit s hid (check - i) (check - i) ≠ []) ∧
        (k < fuel → get_entries_by_habit s hid (check - k) (check - k) = [])
  | 0, check, acc =>
      ⟨0, by simp [streakLoop], by omega,
        fun i hi => absurd hi (by omega), fun h => absurd h (by omega)⟩
  | fuel + 1, check, acc => by
      by_cases hemp : (get_entries_by_habit s hid check check).isEmpty = true
      · refine ⟨0, by simp [streakLoop, hemp], by omega,
          fun i hi => absurd hi (by omega), fun _ => ?_⟩
        rcases hl : get_entries_by_habit s hid check check with _ | ⟨a, l⟩
        · simpa using hl
        · rw [hl] at hemp
          exact absurd hemp (by simp)
      · obtain ⟨k, hloop, hk, hall, hstop⟩ :=
          streakLoop_spec s hid fuel (check - 1) (acc + 1)
        have hred : streakLoop s hid (fuel + 1) check acc =
            streakLoop s hid fuel (check - 1) (acc + 1) := by
          simp [streakLoop, hemp]
        refine ⟨k + 1, by rw [hred, hloop]; omega, by omega, ?_, ?_⟩
        · intro i hi
          cases i with
          | zero =>
              simp only [Nat.sub_zero]
              rcases hl : get_entries_by_habit s hid check check with _ | _
              · rw [hl] at hemp
                exact absurd rfl hemp
              · simp
          | succ j =>
              have := hall j (by omega)
              rwa [Nat.sub_sub, Nat.add_comm 1 j] at this
        · intro hk1
          have := hstop (by omega)
          rwa [Nat.sub_sub, Nat.add_comm 1 k] at this

/-- Claim C7: for every existing habit and as-of date, CurrentStreak equals
the number of consecutive days ending at `as_of` (walking backward one day
at a time) that each have an entry, stopping at the first day — possibly
`as_of` itself, giving 0 — without an entry; the walk examines at most 365
days, so the returned streak never exceeds 365 even if entries continue
further back. -/
theorem claim_C7 (habits : List Habit) (s : Store) (hid : String)
    (as_of : Nat) (hfound : ∃ h, findHabit habits hid = some h) :
    ∃ n, get_current_streak habits s hid as_of = .ok n ∧ n ≤ 365 ∧
      (∀ i < n, get_entries_by_habit s hid (as_of - i) (as_of - i) ≠ []) ∧
      (n < 365 → get_entries_by_habit s hid (as_of - n) (as_of - n) = []) := by
  obtain ⟨h, hf⟩ := hfound
  obtain ⟨k, hloop, hk, hall, hstop⟩ := streakLoop_spec s hid 365 as_of 0
  refine ⟨k, ?_, hk, hall, hstop⟩
  simp only [get_current_streak, hf, hloop, Nat.zero_add]

/-- Claim C7, witness at a concrete input: entries on days 9 and 10 only,
`as_of = 10`. -/
theorem claim_C7_witness :
    (∃ h, findHabit [⟨"steps", "Steps", "steps", .manual, "", none, none⟩]
        "steps" = some h) ∧
    get_current_streak [⟨"steps", "Steps", "steps", .manual, "", none, none⟩]
        [⟨"steps", 10, 1, 0, .manual⟩, ⟨"steps", 9, 1, 0, .manual⟩]
        "steps" 10 = .ok 2 ∧
    ∃ n, get_current_streak [⟨"steps", "Steps", "steps", .manual, "", none, none⟩]
        [⟨"steps", 10, 1, 0, .manual⟩, ⟨"steps", 9, 1, 0, .manual⟩]
        "steps" 10 = .ok n ∧ n ≤ 365 ∧
      (∀ i < n, get_entries_by_habit
        [⟨"steps", 10, 1, 0, .manual⟩, ⟨"steps", 9, 1, 0, .manual⟩]
        "steps" (10 - i) (10 - i) ≠ []) ∧
      (n < 365 → get_entries_by_habit
        [⟨"steps", 10, 1, 0, .manual⟩, ⟨"steps", 9, 1, 0, .manual⟩]
        "steps" (10 - n) (10 - n) = []) :=
  ⟨⟨⟨"steps", "Steps", "steps", .manual, "", none, none⟩, by decide⟩,
   by decide,
   claim_C7 [⟨"steps", "Steps", "steps", .manual, "", none, none⟩]
     [⟨"steps", 10, 1, 0, .manual⟩, ⟨"steps", 9, 1, 0, .manual⟩] "steps" 10
     ⟨⟨"steps", "Steps", "steps", .manual, "", none, none⟩, by decide⟩⟩

/-- Claim C5: for every active weekly goal and check date, the aggregated
actual value is the sum of the habit's entry values over the window
starting at `check - weekday(check)` — which is the Monday of the check
date's week (its weekday is 0 and it is at most 6 days before the check
date) — through the following Sunday, and it is null exactly when zero
entries exist in that window, distinguishing "no data" from entries summing
to zero. -/
theorem claim_C5 (goals : List Goal) (s : Store) (goal_id : String)
    (g : Goal) (check : Ymd)
    (hg : findGoal goals goal_id = some g)
    (hweek : g.period = .weekly)
    (hactive : g.is_active check.toOrd = true)
    (hord : 1 ≤ check.toOrd) :
    weekday (check.toOrd - weekday check.toOrd) = 0 ∧
    check.toOrd - weekday check.toOrd ≤ check.toOrd ∧
    check.toOrd ≤ check.toOrd - weekday check.toOrd + 6 ∧
    ∃ r, check_goal_progress goals s goal_id check = .ok r ∧
      r.is_active = true ∧
      r.actual_value =
        (if (get_entries_by_habit s g.habit_id
              (check.toOrd - weekday check.toOrd)
              (check.toOrd - weekday check.toOrd + 6)).isEmpty then none
         else some ((get_entries_by_habit s g.habit_id
              (check.toOrd - weekday check.toOrd)
              (check.toOrd - weekday check.toOrd + 6)).map (·.value)).sum) := by
  refine ⟨?_, ?_, ?_, ?_⟩
  · unfold weekday
    omega
  · omega
  · unfold weekday
    omega
  · have hav : get_actual_value s g check =
        (if (get_entries_by_habit s g.habit_id
              (check.toOrd - weekday check.toOrd)
              (check.toOrd - weekday check.toOrd + 6)).isEmpty then none
         else some ((get_entries_by_habit s g.habit_id
              (check.toOrd - weekday check.toOrd)
              (check.toOrd - weekday check.toOrd + 6)).map (·.value)).sum) := by
      simp only [get_actual_value, hweek]
    by_cases hemp : ((get_entries_by_habit s g.habit_id
        (check.toOrd - weekday check.toOrd)
        (check.toOrd - weekday check.toOrd + 6)).isEmpty) = true
    · refine ⟨⟨true, none, none, none, none⟩, ?_, rfl, ?_⟩
      · simp only [check_goal_progress, hg]
        rw [if_neg (by simp [hactive]), hav, if_pos hemp]
      · rw [if_pos hemp]
    · refine ⟨⟨true, some ((get_entries_by_habit s g.habit_id
          (check.toOrd - weekday check.toOrd)
          (check.toOrd - weekday check.toOrd + 6)).map (·.value)).sum,
        some (g.is_met ((get_entries_by_habit s g.habit_id
          (check.toOrd - weekday check.toOrd)
          (check.toOrd - weekday check.toOrd + 6)).map (·.value)).sum),
        some g.target_value, some g.comparison⟩, ?_, rfl, ?_⟩
      · simp only [check_goal_progress, hg]
        rw [if_neg (by simp [hactive]), hav, if_neg hemp]
      · rw [if_neg hemp]

/-- Claim C5, witness at the spec's concrete scenario: entries of 12000 on
2024-01-01, -02 and -03 only; active weekly goal; check date 2024-01-03
lies in the week Monday 2024-01-01 .. Sunday 2024-01-07 and the actual
value is 36000. -/
theorem claim_C5_witness :
    findGoal [⟨"wg", "steps", 10000, .greater_than_or_equal, .weekly,
        ymd2ord 2024 1 1, none, ""⟩] "wg"
      = some ⟨"wg", "steps", 10000, .greater_than_or_equal, .weekly,
        ymd2ord 2024 1 1, none, ""⟩ ∧
    Goal.is_active ⟨"wg", "steps", 10000, .greater_than_or_equal, .weekly,
        ymd2ord 2024 1 1, none, ""⟩ (Ymd.toOrd ⟨2024, 1, 3⟩) = true ∧
    weekday (ymd2ord 2024 1 1) = 0 ∧
    Ymd.toOrd ⟨2024, 1, 3⟩ - weekday (Ymd.toOrd ⟨2024, 1, 3⟩)
      = ymd2ord 2024 1 1 ∧
    ∃ r, check_goal_progress
        [⟨"wg", "steps", 10000, .greater_than_or_equal, .weekly,
          ymd2ord 2024 1 1, none, ""⟩]
        [⟨"steps", ymd2ord 2024 1 1, 12000, 0, .manual⟩,
         ⟨"steps", ymd2ord 2024 1 2, 12000, 0, .manual⟩,
         ⟨"steps", ymd2ord 2024 1 3, 12000, 0, .manual⟩]
        "wg" ⟨2024, 1, 3⟩ = .ok r ∧
      r.is_active = true ∧
      r.actual_value = some 36000 := by
  refine ⟨by decide, by decide, by decide, by decide, ?_⟩
  obtain ⟨-, -, -, r, hr, hact, hav⟩ := claim_C5
    [⟨"wg", "steps", 10000, .greater_than_or_equal, .weekly,
      ymd2ord 2024 1 1, none, ""⟩]
    [⟨"steps", ymd2ord 2024 1 1, 12000, 0, .manual⟩,
     ⟨"steps", ymd2ord 2024 1 2, 12000, 0, .manual⟩,
     ⟨"steps", ymd2ord 2024 1 3, 12000, 0, .manual⟩]
    "wg"
    ⟨"wg", "steps", 10000, .greater_than_or_equal, .weekly,
      ymd2ord 2024 1 1, none, ""⟩
    ⟨2024, 1, 3⟩ (by decide) (by decide) (by decide) (by decide)
  rw [if_neg (by decide)] at hav
  rw [show get_entries_by_habit
      [⟨"steps", ymd2ord 2024 1 1, 12000, 0, .manual⟩,
       ⟨"steps", ymd2ord 2024 1 2, 12000, 0, .manual⟩,
       ⟨"steps", ymd2ord 2024 1 3, 12000, 0, .manual⟩]
      "steps"
      (Ymd.toOrd ⟨2024, 1, 3⟩ - weekday (Ymd.toOrd ⟨2024, 1, 3⟩))
      (Ymd.toOrd ⟨2024, 1, 3⟩ - weekday (Ymd.toOrd ⟨2024, 1, 3⟩) + 6) =
      [⟨"steps", ymd2ord 2024 1 1, 12000, 0, .manual⟩,
       ⟨"steps", ymd2ord 2024 1 2, 12000, 0, .manual⟩,
       ⟨"steps", ymd2ord 2024 1 3, 12000, 0, .manual⟩] from by decide] at hav
  norm_num at hav
  exact ⟨r, hr, hact, hav⟩

/-! ## Calendar month lemmas -/

theorem daysBeforeMonth_succ (y : Nat) {m : Nat} (h1 : 1 ≤ m) (h2 : m ≤ 11) :
    daysBeforeMonth y (m + 1) = daysBeforeMonth y m + daysInMonth y m := by
  unfold daysBeforeMonth daysInMonth
  by_cases hL : isLeapYear y = true <;>
    interval_cases m <;>
    simp [DAYS_BEFORE_MONTH, DAYS_IN_MONTH, hL]

/-- The month-end computation of `get_calendar_data` spans exactly
`daysInMonth` days: `(end - start).days + 1 = daysInMonth`. -/
theorem month_end_spec (y : Nat) {m : Nat} (h1 : 1 ≤ m) (h2 : m ≤ 12) :
    (if m = 12 then ymd2ord y 12 31 else ymd2ord y (m + 1) 1 - 1) + 1
      - ymd2ord y m 1 = daysInMonth y m := by
  by_cases hm : m = 12
  · subst hm
    have hd : daysInMonth y 12 = 31 := by simp [daysInMonth, DAYS_IN_MONTH]
    rw [if_pos rfl]
    unfold ymd2ord
    omega
  · rw [if_neg hm]
    have hsucc := daysBeforeMonth_succ y h1 (by omega)
    have hpos : 1 ≤ daysInMonth y m := by
      unfold daysInMonth
      split
      · omega
      · interval_cases m <;> decide
    unfold ymd2ord
    omega

/-- Looking up a day of the queried range in the dense `entry_map` built by
the calendar/trend services returns the stored entry's value, or the 0.0
default when the habit has no entry that day. -/
theorem entry_map_lookup {s : Store} {hid : String} {a b d : Nat}
    (hku : storeKeyUnique s) (hd1 : a ≤ d) (hd2 : d ≤ b) :
    (pyDictGet? d ((get_entries_by_habit s hid a b).foldl
        (fun m e => pyDictInsert e.date e.value m) [])).getD 0
      = match lookupStore s d hid with
        | some e => e.value
        | none => 0 := by
  have hnd : ((get_entries_by_habit s hid a b).map (fun e => e.date)).Nodup := by
    refine List.pairwise_map.mpr ?_
    have hpw : (get_entries_by_habit s hid a b).Pairwise
        (fun e₁ e₂ => e₁.date ≠ e₂.date ∨ e₁.habit_id ≠ e₂.habit_id) :=
      hku.sublist (List.filter_sublist s)
    refine hpw.imp_of_mem ?_
    intro e₁ e₂ h₁ h₂ hr
    have k₁ := (mem_get_entries_by_habit.mp h₁).2.1
    have k₂ := (mem_get_entries_by_habit.mp h₂).2.1
    rcases hr with hr | hr
    · exact hr
    · exact absurd (k₁.trans k₂.symm) hr
  have h := pyDictGet?_foldl_insert (fun e : HabitEntry => e.date)
    (fun e => e.value) d (get_entries_by_habit s hid a b) [] hnd
  have hfind : (get_entries_by_habit s hid a b).find? (fun e => e.date == d)
      = lookupStore s d hid := by
    rw [get_entries_by_habit, List.find?_filter]
    exact find?_congr_mem fun e _ => by
      by_cases h2 : e.date = d
      · simp [h2, hd1, hd2]
      · simp [h2]
  rw [hfind] at h
  rw [h]
  cases hls : lookupStore s d hid <;> simp [hls, pyDictGet?]

/-- Claim C6: for every existing habit and valid month, CalendarData
returns exactly one `(date, value)` point per calendar day of the month, in
date order (the i-th point is day `first + i`), using the entry's value for
logged days and 0.0 for unlogged days; the number of points is exactly
`daysInMonth`, correct for variable-length months, December, and leap
years. -/
theorem claim_C6 (habits : List Habit) (s : Store) (hid : String) (h : Habit)
    (year month : Nat)
    (hfound : findHabit habits hid = some h)
    (hku : storeKeyUnique s)
    (hm1 : 1 ≤ month) (hm2 : month ≤ 12) :
    ∃ pts, get_calendar_data habits s hid year month = .ok pts ∧
      pts.length = daysInMonth year month ∧
      ∀ i (hi : i < pts.length),
        pts.get ⟨i, hi⟩ = (ymd2ord year month 1 + i,
          match lookupStore s (ymd2ord year month 1 + i) hid with
          | some e => e.value
          | none => 0) := by
  simp only [get_calendar_data, hfound]
  refine ⟨_, rfl, ?_, ?_⟩
  · rw [List.length_map, dayRange, List.length_range']
    exact month_end_spec year hm1 hm2
  · intro i hi
    rw [List.length_map, dayRange, List.length_range'] at hi
    have hlen := month_end_spec year hm1 hm2
    rw [List.get_eq_getElem, List.getElem_map]
    simp only [dayRange]
    rw [List.getElem_range'_1]
    have hstart : ymd2ord year month 1 ≤ ymd2ord year month 1 + i := by omega
    have hend : ymd2ord year month 1 + i ≤
        (if month = 12 then ymd2ord year 12 31
         else ymd2ord year (month + 1) 1 - 1) := by
      omega
    rw [entry_map_lookup hku hstart hend]

/-- Claim C6, witness at the spec's leap-year scenario: February 2024 has
exactly 29 points. -/
theorem claim_C6_witness :
    findHabit [⟨"steps", "Steps", "steps", .manual, "", none, none⟩] "steps"
      = some ⟨"steps", "Steps", "steps", .manual, "", none, none⟩ ∧
    storeKeyUnique [⟨"steps", ymd2ord 2024 2 10, 3, 0, .manual⟩] ∧
    daysInMonth 2024 2 = 29 ∧
    ∃ pts, get_calendar_data
        [⟨"steps", "Steps", "steps", .manual, "", none, none⟩]
        [⟨"steps", ymd2ord 2024 2 10, 3, 0, .manual⟩]
        "steps" 2024 2 = .ok pts ∧
      pts.length = daysInMonth 2024 2 ∧
      ∀ i (hi : i < pts.length),
        pts.get ⟨i, hi⟩ = (ymd2ord 2024 2 1 + i,
          match lookupStore [⟨"steps", ymd2ord 2024 2 10, 3, 0, .manual⟩]
              (ymd2ord 2024 2 1 + i) "steps" with
          | some e => e.value
          | none => 0) :=
  ⟨by decide, by decide, by decide,
   claim_C6 [⟨"steps", "Steps", "steps", .manual, "", none, none⟩]
     [⟨"steps", ymd2ord 2024 2 10, 3, 0, .manual⟩] "steps"
     ⟨"steps", "Steps", "steps", .manual, "", none, none⟩ 2024 2
     (by decide) (by decide) (by decide) (by decide)⟩

/-! ## Day-centric completion counting -/

/-- A day counts as completed when the habit's entry on that day (if any)
has a value strictly greater than the threshold. -/
def dayCompleted (s : Store) (hid : String) (th : ℚ) (d : Nat) : Bool :=
  match lookupStore s d hid with
  | some e => decide (e.value > th)
  | none => false

theorem countP_update {α : Type} (f g : α → Bool) :
    ∀ {l : List α} {x : α}, l.Nodup → x ∈ l →
      (∀ a ∈ l, a ≠ x → f a = g a) →
      l.countP f + (if g x = true then 1 else 0)
        = l.countP g + (if f x = true then 1 else 0)
  | [], x, _, hx, _ => absurd hx (List.not_mem_nil x)
  | a :: l, x, hnd, hx, hfg => by
      obtain ⟨ha, hl⟩ := List.nodup_cons.mp hnd
      rcases List.mem_cons.mp hx with hax | hx'
      · subst hax
        have hcong : l.countP f = l.countP g :=
          List.countP_congr fun b hb => by
            rw [hfg b (List.mem_cons_of_mem _ hb) (fun hbx => ha (hbx ▸ hb))]

        rw [List.countP_cons, List.countP_cons, hcong]
        omega
      · have hne : a ≠ x := fun hax => ha (hax ▸ hx')
        have hfa : f a = g a := hfg a (List.mem_cons_self _ _) hne
        have hrec := countP_update f g hl hx'
          (fun b hb hbx => hfg b (List.mem_cons_of_mem _ hb) hbx)
        rw [List.countP_cons, List.countP_cons, hfa]
        omega

/-- Field `days_completed` counts entries above the threshold; under the table's
key invariant this equals the number of days in the range whose (unique)
entry is above the threshold. -/
theorem countP_days_eq {hid : String} {th : ℚ} {a b : Nat} :
    ∀ {s : Store}, storeKeyUnique s →
      (get_entries_by_habit s hid a b).countP (fun e => decide (e.value > th))
        = (dayRange a b).countP (dayCompleted s hid th)
  | [], _ => by
      have : ∀ d ∈ dayRange a b, ¬(dayCompleted [] hid th d = true) := by
        intro d _
        simp [dayCompleted, lookupStore, List.find?]
      simp [get_entries_by_habit, List.countP_eq_zero.mpr this]
  | e :: s, hku => by
      have hku' : storeKeyUnique s := (List.pairwise_cons.mp hku).2
      have hhead := (List.pairwise_cons.mp hku).1
      have ih := @countP_days_eq hid th a b s hku'
      by_cases hp : e.habit_id = hid ∧ a ≤ e.date ∧ e.date ≤ b
      · have hfe : get_entries_by_habit (e :: s) hid a b
            = e :: get_entries_by_habit s hid a b := by
          simp [get_entries_by_habit, List.filter_cons, hp]
        have hmemd : e.date ∈ dayRange a b := by
          rw [dayRange, List.mem_range'_1]
          omega
        have hlook : ∀ d, d ≠ e.date →
            dayCompleted (e :: s) hid th d = dayCompleted s hid th d := by
          intro d hd
          have : ¬(e.date = d ∧ e.habit_id = hid) := fun hc => hd hc.1.symm
          simp [dayCompleted, lookupStore, List.find?_cons, this]
        have hlookx : dayCompleted (e :: s) hid th e.date
            = decide (e.value > th) := by
          have : e.date = e.date ∧ e.habit_id = hid := ⟨rfl, hp.1⟩
          simp [dayCompleted, lookupStore, List.find?_cons, this]
        have hlookx' : dayCompleted s hid th e.date = false := by
          have hnone : lookupStore s e.date hid = none := by
            rw [lookupStore, List.find?_eq_none]
            intro e' he' hbe
            rw [decide_eq_true_eq] at hbe
            exact absurd (Or.inl hbe.1)
              (by have := hhead e' he'; rw [hp.1] at this; tauto)
          simp [dayCompleted, hnone]
        have hupd := @countP_update Nat (dayCompleted (e :: s) hid th)
          (dayCompleted s hid th) (dayRange a b) e.date
          (by rw [dayRange]; exact List.nodup_range' a _) hmemd
          (fun d _ hd => hlook d hd)
        rw [hlookx, hlookx'] at hupd
        simp only [Bool.false_eq_true, if_false] at hupd
        rw [hfe, List.countP_cons, ih]
        omega
      · have hfe : get_entries_by_habit (e :: s) hid a b
            = get_entries_by_habit s hid a b := by
          simp [get_entries_by_habit, List.filter_cons, hp]
        have hall : ∀ d ∈ dayRange a b,
            dayCompleted (e :: s) hid th d = dayCompleted s hid th d := by
          intro d hd
          rw [dayRange, List.mem_range'_1] at hd
          have : ¬(e.date = d ∧ e.habit_id = hid) := by
            intro hc
            exact hp ⟨hc.2, by omega, by omega⟩
          simp [dayCompleted, lookupStore, List.find?_cons, this]
        rw [hfe, ih]
        exact (List.countP_congr fun d hd => by rw [hall d hd]).symm

/-- Python's `round(x, 2)` keeps values of `[0, 100]` inside `[0, 100]`. -/
theorem pyRound2_bounds {q : ℚ} (h0 : 0 ≤ q) (h1 : q ≤ 100) :
    0 ≤ pyRound2 q ∧ pyRound2 q ≤ 100 := by
  unfold pyRound2
  dsimp only
  have hfl : ((⌊q * 100⌋ : ℚ)) ≤ q * 100 := Int.floor_le (q * 100)
  have hfl0 : 0 ≤ ⌊q * 100⌋ := Int.floor_nonneg.mpr (by positivity)
  have ht : q * 100 ≤ 10000 := by linarith
  have hup : ∀ n : Int, 0 ≤ n → n ≤ 10000 →
      0 ≤ (n : ℚ) / 100 ∧ (n : ℚ) / 100 ≤ 100 := by
    intro n hn0 hn1
    constructor
    · positivity
    · rw [div_le_iff (by norm_num)]
      calc (n : ℚ) ≤ 10000 := by exact_mod_cast hn1
      _ = 100 * 100 := by norm_num
  split_ifs with hc1 hc2 hc3
  · exact hup _ hfl0 (by exact_mod_cast hfl.trans ht)
  · refine hup _ (by omega) ?_
    have : ((⌊q * 100⌋ : ℚ)) + 1 < 10001 := by linarith
    have h' : (⌊q * 100⌋ + 1 : Int) < 10001 := by exact_mod_cast this
    omega
  · exact hup _ hfl0 (by exact_mod_cast hfl.trans ht)
  · refine hup _ (by omega) ?_
    have : ((⌊q * 100⌋ : ℚ)) + 1 ≤ 10001 := by linarith
    have h' : (⌊q * 100⌋ + 1 : Int) ≤ 10001 := by exact_mod_cast this
    have h'' : ¬(⌊q * 100⌋ + 1 = 10001) := by
      intro hcontra
      have : ((⌊q * 100⌋ : ℚ)) = 10000 := by
        have := congrArg (fun z : Int => (z : ℚ)) hcontra
        push_cast at this
        linarith
      rw [this] at hc2
      simp at hc2
      linarith
    omega

theorem pyRound2_hundred : pyRound2 100 = 100 := by
  unfold pyRound2
  norm_num

/-- Claim C9: for every existing habit, threshold, and `start ≤ end` (with
at most one entry per `(habit, day)` in the store), CompletionRate counts a
day as completed exactly when its entry's value is strictly greater than
the threshold (days without an entry never count), returns
`completed / total_days × 100` rounded to 2 decimal places, the resulting
rate always lies in `[0, 100]`, and with threshold 0 and every day of the
range carrying an entry with positive value the rate is exactly 100. -/
theorem claim_C9 (habits : List Habit) (s : Store) (hid : String) (h : Habit)
    (a b : Nat) (th : ℚ)
    (hfound : findHabit habits hid = some h)
    (hku : storeKeyUnique s)
    (hle : a ≤ b) :
    ∃ r, get_completion_rate habits s hid a b th = .ok r ∧
      r.days_completed = (dayRange a b).countP (dayCompleted s hid th) ∧
      r.total_days = (b : Int) - (a : Int) + 1 ∧
      r.completion_rate
        = pyRound2 ((r.days_completed : ℚ) / ((r.total_days : Int) : ℚ) * 100) ∧
      0 ≤ r.completion_rate ∧ r.completion_rate ≤ 100 ∧
      ((th = 0 ∧ ∀ d ∈ dayRange a b, dayCompleted s hid 0 d = true) →
        r.completion_rate = 100) := by
  simp only [get_completion_rate, hfound]
  have htot : ((b : Int) - (a : Int) + 1 > 0) := by omega
  rw [if_pos htot]
  have hcount : (get_entries_by_habit s hid a b).countP
      (fun e => decide (e.value > th)) ≤ b + 1 - a := by
    rw [countP_days_eq hku]
    calc (dayRange a b).countP (dayCompleted s hid th)
        ≤ (dayRange a b).length := List.countP_le_length _
      _ = b + 1 - a := by rw [dayRange, List.length_range']
  have hcast : (((b : Int) - (a : Int) + 1 : Int) : ℚ)
      = ((b + 1 - a : Nat) : ℚ) := by
    have : (b : Int) - (a : Int) + 1 = ((b + 1 - a : Nat) : Int) := by omega
    rw [this]
    push_cast
    ring
  have hpos : (0 : ℚ) < ((b + 1 - a : Nat) : ℚ) := by
    have : 1 ≤ b + 1 - a := by omega
    exact_mod_cast Nat.lt_of_lt_of_le Nat.zero_lt_one this
  have hq0 : 0 ≤ ((get_entries_by_habit s hid a b).countP
      (fun e => decide (e.value > th)) : ℚ)
      / (((b : Int) - (a : Int) + 1 : Int) : ℚ) * 100 := by
    rw [hcast]
    positivity
  have hq1 : ((get_entries_by_habit s hid a b).countP
      (fun e => decide (e.value > th)) : ℚ)
      / (((b : Int) - (a : Int) + 1 : Int) : ℚ) * 100 ≤ 100 := by
    rw [hcast]
    rw [div_mul_eq_mul_div, div_le_iff hpos]
    have : ((get_entries_by_habit s hid a b).countP
        (fun e => decide (e.value > th)) : ℚ) ≤ ((b + 1 - a : Nat) : ℚ) :=
      by exact_mod_cast hcount
    nlinarith
  have hb := pyRound2_bounds hq0 hq1
  refine ⟨_, rfl, countP_days_eq hku, rfl, rfl, hb.1, hb.2, ?_⟩
  rintro ⟨hth, hfull⟩
  subst hth
  have hcnt : (get_entries_by_habit s hid a b).countP
      (fun e => decide (e.value > 0)) = b + 1 - a := by
    rw [countP_days_eq hku]
    rw [show (dayRange a b).countP (dayCompleted s hid 0)
        = (dayRange a b).length from List.countP_eq_length.mpr hfull]
    rw [dayRange, List.length_range']
  rw [hcnt]
  rw [hcast, div_self (ne_of_gt hpos), one_mul]
  exact pyRound2_hundred

/-- Claim C9, witness at a concrete input: threshold 0, range day 1 .. day
3, every day logged with a positive value, rate exactly 100. -/
theorem claim_C9_witness :
    findHabit [⟨"steps", "Steps", "steps", .manual, "", none, none⟩] "steps"
      = some ⟨"steps", "Steps", "steps", .manual, "", none, none⟩ ∧
    storeKeyUnique
      [⟨"steps", 1, 4, 0, .manual⟩, ⟨"steps", 2, 5, 0, .manual⟩,
       ⟨"steps", 3, 6, 0, .manual⟩] ∧
    (1 : Nat) ≤ 3 ∧
    ∃ r, get_completion_rate
        [⟨"steps", "Steps", "steps", .manual, "", none, none⟩]
        [⟨"steps", 1, 4, 0, .manual⟩, ⟨"steps", 2, 5, 0, .manual⟩,
         ⟨"steps", 3, 6, 0, .manual⟩]
        "steps" 1 3 0 = .ok r ∧
      r.completion_rate = 100 ∧ r.days_completed = 3 ∧ r.total_days = 3 := by
  refine ⟨by decide, by decide, by decide, ?_⟩
  obtain ⟨r, hok, hdc, htd, -, -, -, hfull⟩ := claim_C9
    [⟨"steps", "Steps", "steps", .manual, "", none, none⟩]
    [⟨"steps", 1, 4, 0, .manual⟩, ⟨"steps", 2, 5, 0, .manual⟩,
     ⟨"steps", 3, 6, 0, .manual⟩]
    "steps" ⟨"steps", "Steps", "steps", .manual, "", none, none⟩ 1 3 0
    (by decide) (by decide) (by decide)
  refine ⟨r, hok, hfull ⟨rfl, by decide⟩, ?_, ?_⟩
  · rw [hdc]
    decide
  · rw [htd]
    decide

/-! ## The longest-streak scan against its run-based description

`trailRun logged start n` is the length of the trailing run of logged days
among the first `n` days of the scan; `maxRunLen` is the maximum run length
seen so far.  `longestStreakSpec` is the claim's description of the result:
the maximum run with its start/end dates, ties broken by the earliest
(first) maximal run, and length 0 with null dates when nothing is logged. -/

def trailRun (logged : Nat → Bool) (start : Nat) : Nat → Nat
  | 0 => 0
  | n + 1 => if logged (start + n) then trailRun logged start n + 1 else 0

def maxRunLen (logged : Nat → Bool) (start : Nat) : Nat → Nat
  | 0 => 0
  | n + 1 => max (maxRunLen logged start n) (trailRun logged start (n + 1))

/-- The claim's description of the longest-streak result over the `n` days
starting at `start`: the maximum run length, with the start/end dates of
the earliest run attaining it, or zero/null when no day is logged. -/
def longestStreakSpec (logged : Nat → Bool) (start n : Nat) :
    LongestStreakResult :=
  let m := maxRunLen logged start n
  if m = 0 then ⟨0, none, none⟩
  else
    match (List.range n).find?
        (fun k => trailRun logged start (k + 1) == m) with
    | some k => ⟨m, some (start + k + 1 - m), some (start + k)⟩
    | none => ⟨0, none, none⟩

theorem trailRun_le (logged : Nat → Bool) (start : Nat) :
    ∀ n, trailRun logged start n ≤ n
  | 0 => Nat.le_refl 0
  | n + 1 => by
      rw [trailRun]
      split
      · exact Nat.succ_le_succ (trailRun_le logged start n)
      · omega

theorem trailRun_le_maxRunLen (logged : Nat → Bool) (start : Nat) :
    ∀ {k n : Nat}, k < n →
      trailRun logged start (k + 1) ≤ maxRunLen logged start n
  | k, 0, hk => absurd hk (by omega)
  | k, n + 1, hk => by
      rw [maxRunLen]
      rcases Nat.lt_succ_iff_lt_or_eq.mp hk with hk' | hk'
      · exact le_trans (trailRun_le_maxRunLen logged start hk') (le_max_left _ _)
      · subst hk'
        exact le_max_right _ _

/-- The loop invariant of the `get_longest_streak` date scan after the
first `n` days have been processed. -/
def LSInv (logged : Nat → Bool) (start n : Nat) (st : LSState) : Prop :=
  st.current_streak = trailRun logged start n ∧
  st.current_start = (if trailRun logged start n = 0 then none
    else some (start + n - trailRun logged start n)) ∧
  st.max_streak = maxRunLen logged start n ∧
  (maxRunLen logged start n = 0 → st.max_start = none ∧ st.max_end = none) ∧
  (maxRunLen logged start n ≠ 0 →
    ∃ k, (List.range n).find?
        (fun j => trailRun logged start (j + 1) == maxRunLen logged start n)
      = some k ∧
      st.max_end = some (start + k) ∧
      st.max_start = some (start + k + 1 - maxRunLen logged start n))

theorem lsInv_step {logged : Nat → Bool} {start n : Nat} {st : LSState}
    (h : LSInv logged start n st) :
    LSInv logged start (n + 1) (lsStep logged st (start + n)) := by
  obtain ⟨hcur, hcs, hmax, hzero, hpos⟩ := h
  by_cases hl : logged (start + n) = true
  · have ht' : trailRun logged start (n + 1)
        = trailRun logged start n + 1 := by
      rw [trailRun, if_pos hl]
    by_cases hgt : st.current_streak + 1 > st.max_streak
    · have hm' : maxRunLen logged start (n + 1)
          = trailRun logged start n + 1 := by
        rw [maxRunLen, ht', hcur] at *
        omega
      have hstep : lsStep logged st (start + n) =
          ⟨st.current_streak + 1,
           if st.current_streak = 0 then some (start + n) else st.current_start,
           some (start + n), st.current_streak + 1,
           if st.current_streak = 0 then some (start + n)
           else st.current_start⟩ := by
        rw [lsStep, if_pos hl]
        simp only [if_pos hgt]
      rw [hstep]
      have hcs' : (if st.current_streak = 0 then some (start + n)
          else st.current_start)
          = some (start + (n + 1) - (trailRun logged start n + 1)) := by
        by_cases hc0 : st.current_streak = 0
        · rw [if_pos hc0]
          rw [hcur] at hc0
          rw [hc0]
          exact congrArg some (by omega)
        · rw [if_neg hc0, hcs]
          rw [hcur] at hc0
          rw [if_neg hc0]
          have := trailRun_le logged start n
          congr 1
          omega
      refine ⟨by rw [ht', hcur], ?_, by rw [hm', hcur], ?_, ?_⟩
      · rw [ht', hcs']
        rw [if_neg (by omega)]
      · intro hmz
        rw [hm'] at hmz
        omega
      · intro _
        refine ⟨n, ?_, rfl, ?_⟩
        · rw [List.range_succ, List.find?_append]
          have hnone : (List.range n).find?
              (fun j => trailRun logged start (j + 1)
                == maxRunLen logged start (n + 1)) = none := by
            rw [List.find?_eq_none]
            intro j hj hbeq
            rw [List.mem_range] at hj
            have hle := trailRun_le_maxRunLen logged start hj
            rw [beq_iff_eq.mp hbeq, hm'] at hle
            rw [hmax, hcur] at hgt
            omega
          rw [hnone]
          have : (trailRun logged start (n + 1)
              == maxRunLen logged start (n + 1)) = true := by
            rw [beq_iff_eq, ht', hm']
          simp [List.find?_cons, this]
        · rw [hcs', hm']
          rfl
    · have hle' : trailRun logged start n + 1 ≤ maxRunLen logged start n := by
        rw [hcur, hmax] at hgt
        omega
      have hm' : maxRunLen logged start (n + 1) = maxRunLen logged start n := by
        rw [maxRunLen, ht']
        exact Nat.max_eq_left hle'
      have hstep : lsStep logged st (start + n) =
          { st with current_streak := st.current_streak + 1,
                    current_start := if st.current_streak = 0
                      then some (start + n) else st.current_start } := by
        rw [lsStep, if_pos hl]
        simp only [if_neg hgt]
      rw [hstep]
      have hcs' : (if st.current_streak = 0 then some (start + n)
          else st.current_start)
          = some (start + (n + 1) - (trailRun logged start n + 1)) := by
        by_cases hc0 : st.current_streak = 0
        · rw [if_pos hc0]
          rw [hcur] at hc0
          rw [hc0]
          exact congrArg some (by omega)
        · rw [if_neg hc0, hcs]
          rw [hcur] at hc0
          rw [if_neg hc0]
          have := trailRun_le logged start n
          congr 1
          omega
      refine ⟨by rw [ht', hcur], ?_, by rw [hm', hmax], ?_, ?_⟩
      · rw [ht', hcs']
        rw [if_neg (by omega)]
      · intro hmz
        rw [hm'] at hmz
        omega
      · intro _
        have hmnz : maxRunLen logged start n ≠ 0 := by omega
        obtain ⟨k, hfind, hme, hms⟩ := hpos hmnz
        refine ⟨k, ?_, hme, by rw [hm']; exact hms⟩
        rw [List.range_succ, List.find?_append, hm', hfind]
        rfl
  · have hl' : logged (start + n) = false := by
      rw [Bool.not_eq_true] at hl
      exact hl
    have ht' : trailRun logged start (n + 1) = 0 := by
      rw [trailRun, if_neg (by rw [hl']; exact Bool.false_ne_true)]
    have hm' : maxRunLen logged start (n + 1) = maxRunLen logged start n := by
      rw [maxRunLen, ht']
      omega
    have hstep : lsStep logged st (start + n) =
        { st with current_streak := 0, current_start := none } := by
      rw [lsStep, if_neg (by rw [hl']; exact Bool.false_ne_true)]
    rw [hstep]
    refine ⟨by rw [ht'], by rw [ht', if_pos rfl], by rw [hm', hmax], ?_, ?_⟩
    · intro hmz
      rw [hm'] at hmz
      exact hzero hmz
    · intro hmnz
      rw [hm'] at hmnz
      obtain ⟨k, hfind, hme, hms⟩ := hpos hmnz
      refine ⟨k, ?_, hme, by rw [hm']; exact hms⟩
      rw [List.range_succ, List.find?_append, hm', hfind]
      rfl

theorem lsInv_foldl (logged : Nat → Bool) (start : Nat) :
    ∀ n, LSInv logged start n
      ((List.range' start n).foldl (lsStep logged) ⟨0, none, none, 0, none⟩)
  | 0 => by
      refine ⟨rfl, by simp [trailRun], rfl, fun _ => ⟨rfl, rfl⟩, fun hc => ?_⟩
      exact absurd rfl hc
  | n + 1 => by
      rw [List.range'_concat, List.foldl_append, List.foldl_cons,
        List.foldl_nil, one_mul]
      exact lsInv_step (lsInv_foldl logged start n)

theorem trailRun_congr {f g : Nat → Bool} {start n : Nat}
    (hfg : ∀ d, start ≤ d → d < start + n → f d = g d) :
    ∀ {k}, k ≤ n → trailRun f start k = trailRun g start k
  | 0, _ => rfl
  | k + 1, hk => by
      rw [trailRun, trailRun, hfg (start + k) (by omega) (by omega),
        trailRun_congr hfg (show k ≤ n by omega)]

theorem maxRunLen_congr {f g : Nat → Bool} {start n : Nat}
    (hfg : ∀ d, start ≤ d → d < start + n → f d = g d) :
    ∀ {k}, k ≤ n → maxRunLen f start k = maxRunLen g start k
  | 0, _ => rfl
  | k + 1, hk => by
      rw [maxRunLen, maxRunLen, maxRunLen_congr hfg (show k ≤ n by omega),
        trailRun_congr hfg (show k + 1 ≤ n by omega)]

theorem longestStreakSpec_congr {f g : Nat → Bool} {start n : Nat}
    (hfg : ∀ d, start ≤ d → d < start + n → f d = g d) :
    longestStreakSpec f start n = longestStreakSpec g start n := by
  have hm := maxRunLen_congr hfg (le_refl n)
  have hfind : (List.range n).find?
      (fun k => trailRun f start (k + 1) == maxRunLen g start n)
      = (List.range n).find?
      (fun k => trailRun g start (k + 1) == maxRunLen g start n) :=
    find?_congr_mem fun k hk => by
      rw [trailRun_congr hfg (show k + 1 ≤ n by
        rw [List.mem_range] at hk; omega)]
  unfold longestStreakSpec
  dsimp only
  rw [hm, hfind]

theorem trailRun_false {f : Nat → Bool} (hf : ∀ d, f d = false) (start : Nat) :
    ∀ n, trailRun f start n = 0
  | 0 => rfl
  | n + 1 => by
      rw [trailRun, if_neg (by rw [hf (start + n)]; exact Bool.false_ne_true)]

theorem maxRunLen_false {f : Nat → Bool} (hf : ∀ d, f d = false)
    (start : Nat) : ∀ n, maxRunLen f start n = 0
  | 0 => rfl
  | n + 1 => by
      rw [maxRunLen, maxRunLen_false hf start n,
        trailRun_false hf start (n + 1)]
      omega

theorem longestStreakSpec_false {f : Nat → Bool} (hf : ∀ d, f d = false)
    (start n : Nat) : longestStreakSpec f start n = ⟨0, none, none⟩ := by
  unfold longestStreakSpec
  dsimp only
  rw [maxRunLen_false hf start n, if_pos rfl]

/-- Inside the queried range, membership in the scan's `logged_dates` set
coincides with the store holding an entry for the habit on that day. -/
theorem logged_contains_iff {s : Store} {hid : String} {a b d : Nat}
    (hd1 : a ≤ d) (hd2 : d ≤ b) :
    ((get_entries_by_habit s hid a b).map (fun e => e.date)).contains d
      = (lookupStore s d hid).isSome := by
  rw [Bool.eq_iff_iff, List.contains_eq_any_beq, List.any_eq_true]
  rw [show lookupStore s d hid = List.find?
      (fun e => decide (e.date = d ∧ e.habit_id = hid)) s from rfl]
  rw [List.find?_isSome]
  constructor
  · rintro ⟨x, hx, hbeq⟩
    obtain ⟨e, he, hed⟩ := List.mem_map.mp hx
    obtain ⟨hes, hhid, -, -⟩ := mem_get_entries_by_habit.mp he
    refine ⟨e, hes, ?_⟩
    rw [decide_eq_true_eq]
    exact ⟨hed.trans (beq_iff_eq.mp hbeq).symm, hhid⟩
  · rintro ⟨e, hes, hp⟩
    rw [decide_eq_true_eq] at hp
    refine ⟨e.date, List.mem_map.mpr ⟨e, ?_, rfl⟩, ?_⟩
    · exact mem_get_entries_by_habit.mpr
        ⟨hes, hp.2, by omega, by omega⟩
    · rw [beq_iff_eq, hp.1]

/-- Claim C4: for every habit and `start ≤ end`, LongestStreak equals the
run-based description of the date scan: every calendar day of the range is
visited in order with a run counter that resets on a day without an entry
and increments on a logged day; the reported result is the maximum run
length with its start and end dates; when several runs tie for the maximum
length the earliest (first) maximal run's dates are reported, because the
recorded maximum is replaced only by a strictly greater run length; and
with no logged day in range the result is length 0 with null start/end. -/
theorem claim_C4 (habits : List Habit) (s : Store) (hid : String) (h : Habit)
    (a b : Nat) (hfound : findHabit habits hid = some h) (hle : a ≤ b) :
    get_longest_streak habits s hid a b =
      .ok (longestStreakSpec (fun d => (lookupStore s d hid).isSome) a
        (b + 1 - a)) := by
  have hcongr : longestStreakSpec
      (fun d => ((get_entries_by_habit s hid a b).map
        (fun e => e.date)).contains d) a (b + 1 - a)
      = longestStreakSpec (fun d => (lookupStore s d hid).isSome) a
        (b + 1 - a) :=
    longestStreakSpec_congr fun d h1 h2 => logged_contains_iff h1 (by omega)
  rw [← hcongr]
  by_cases hemp : (get_entries_by_habit s hid a b).isEmpty = true
  · have hentries : get_entries_by_habit s hid a b = [] := by
      rcases hl : get_entries_by_habit s hid a b with _ | ⟨e, l⟩
      · rfl
      · rw [hl] at hemp
        exact absurd hemp (by simp)
    rw [show longestStreakSpec (fun d => ((get_entries_by_habit s hid a b).map
        (fun e => e.date)).contains d) a (b + 1 - a)
        = ⟨0, none, none⟩ from longestStreakSpec_false
          (fun d => by rw [hentries]; rfl) a (b + 1 - a)]
    simp only [get_longest_streak, hfound, hemp, if_pos]
  · obtain ⟨hcur, hcs, hmax, hzero, hpos⟩ := lsInv_foldl
      (fun d => ((get_entries_by_habit s hid a b).map
        (fun e => e.date)).contains d) a (b + 1 - a)
    have hred : get_longest_streak habits s hid a b = .ok
        ⟨((List.range' a (b + 1 - a)).foldl
            (lsStep fun d => ((get_entries_by_habit s hid a b).map
              (fun e => e.date)).contains d)
            ⟨0, none, none, 0, none⟩).max_streak,
         ((List.range' a (b + 1 - a)).foldl
            (lsStep fun d => ((get_entries_by_habit s hid a b).map
              (fun e => e.date)).contains d)
            ⟨0, none, none, 0, none⟩).max_start,
         ((List.range' a (b + 1 - a)).foldl
            (lsStep fun d => ((get_entries_by_habit s hid a b).map
              (fun e => e.date)).contains d)
            ⟨0, none, none, 0, none⟩).max_end⟩ := by
      simp only [get_longest_streak, hfound, hemp, Bool.false_eq_true,
        if_false, dayRange]
    rw [hred]
    unfold longestStreakSpec
    dsimp only
    by_cases hm : maxRunLen (fun d => ((get_entries_by_habit s hid a b).map
        (fun e => e.date)).contains d) a (b + 1 - a) = 0
    · rw [if_pos hm]
      obtain ⟨hms, hme⟩ := hzero hm
      rw [hmax, hm, hms, hme]
    · rw [if_neg hm]
      obtain ⟨k, hfind, hme, hms⟩ := hpos hm
      rw [hfind, hmax, hme, hms]

/-- Claim C4, witness at a concrete input with a tie: runs on days 1-2 and
4-5 both have length 2; the first one (start 1, end 2) is reported. -/
theorem claim_C4_witness :
    findHabit [⟨"steps", "Steps", "steps", .manual, "", none, none⟩] "steps"
      = some ⟨"steps", "Steps", "steps", .manual, "", none, none⟩ ∧
    (1 : Nat) ≤ 5 ∧
    get_longest_streak [⟨"steps", "Steps", "steps", .manual, "", none, none⟩]
      [⟨"steps", 1, 7, 0, .manual⟩, ⟨"steps", 2, 7, 0, .manual⟩,
       ⟨"steps", 4, 7, 0, .manual⟩, ⟨"steps", 5, 7, 0, .manual⟩]
      "steps" 1 5 = .ok ⟨2, some 1, some 2⟩ ∧
    get_longest_streak [⟨"steps", "Steps", "steps", .manual, "", none, none⟩]
      [⟨"steps", 1, 7, 0, .manual⟩, ⟨"steps", 2, 7, 0, .manual⟩,
       ⟨"steps", 4, 7, 0, .manual⟩, ⟨"steps", 5, 7, 0, .manual⟩]
      "steps" 1 5 =
      .ok (longestStreakSpec (fun d => (lookupStore
        [⟨"steps", 1, 7, 0, .manual⟩, ⟨"steps", 2, 7, 0, .manual⟩,
         ⟨"steps", 4, 7, 0, .manual⟩, ⟨"steps", 5, 7, 0, .manual⟩]
        d "steps").isSome) 1 (5 + 1 - 1)) :=
  ⟨by decide, by decide, by decide,
   claim_C4 [⟨"steps", "Steps", "steps", .manual, "", none, none⟩]
     [⟨"steps", 1, 7, 0, .manual⟩, ⟨"steps", 2, 7, 0, .manual⟩,
      ⟨"steps", 4, 7, 0, .manual⟩, ⟨"steps", 5, 7, 0, .manual⟩]
     "steps" ⟨"steps", "Steps", "steps", .manual, "", none, none⟩ 1 5
     (by decide) (by decide)⟩

end HabitHomepage
